import Mathlib

/-!
# idn-C-helloScan: a shallow embedding of `main.c`

The development follows `src/src/main.c`:

* `vbufPrintf` / `bufPrintf` (lines 69-114), the bounded append into a
  character buffer with an ellipsis on truncation;
* the body of `idnHelloScan` (lines 145-310): socket setup, the scan
  request, the collection loop with its four validation checks, the
  formatting of one record per accepted datagram and the final close.

Memory is a list of cells (one natural number per byte), an address is an
index into that list, and a pointer is an `Option Nat` whose `none` is the
null pointer.  Calls into the platform (sockets, `select`, `inet_ntop`) are
answered by an explicit script of results, and what the session does is
recorded as a list of events.
-/

namespace IdnHelloScan

/-! ## Definitions -/

/-- Store of the bytes `bs` at address `p`.  Inside the memory the store
replaces `bs.length` cells; a store that runs past the end of the memory
makes the list longer, so that it stays visible. -/
def writeAt (mem : List Nat) (p : Nat) (bs : List Nat) : List Nat :=
  mem.take p ++ bs ++ mem.drop (p + bs.length)

/-- Conversion of an integer to a 32 bit `int` (two's complement wrap). -/
def toInt32 (x : Int) : Int :=
  (x + 2147483648) % 4294967296 - 2147483648

/-- The largest `int`. -/
def INT_MAX : Nat := 2147483647

/-- The C string that starts at the head of `cells`: the cells before the
first nul (or all of them when there is none). -/
def cstr (cells : List Nat) : List Nat :=
  cells.takeWhile (fun c => c != 0)

/-- Library function `vsnprintf(buf, size, fmt, args)`, where `txt` is the
expansion of `fmt` with `args`.  At most `size - 1` characters of `txt` are
stored at `p`, followed by a nul; the result is the length of `txt`, or a
negative value when that length cannot be an `int`, in which case nothing
is stored. -/
def vsnprintf (mem : List Nat) (p size : Nat) (txt : List Nat) : List Nat × Int :=
  if INT_MAX < txt.length then (mem, -1)
  else if size = 0 then (mem, txt.length)
  else (writeAt mem p (txt.take (size - 1) ++ [0]), txt.length)

/-- The loop `while((limitPtr - bufPtr) > 1) *bufPtr++ = '.';` of
`vbufPrintf` (line 101); `fuel` bounds the number of iterations. -/
def ellipsisLoop : Nat → List Nat → Nat → Nat → List Nat × Nat
  | 0, mem, bufPtr, _ => (mem, bufPtr)
  | fuel + 1, mem, bufPtr, limitPtr =>
    if (limitPtr : Int) - (bufPtr : Int) > 1 then
      ellipsisLoop fuel (writeAt mem bufPtr [46]) (bufPtr + 1) limitPtr
    else (mem, bufPtr)

/-- Lines 100-104 of `vbufPrintf`: fill with dots up to the last cell, then
terminate the string.  The loop runs at most `limitPtr - bufPtr` times. -/
def appendEllipsis (mem : List Nat) (bufPtr limitPtr : Nat) : List Nat × Option Nat :=
  let r := ellipsisLoop (limitPtr - bufPtr) mem bufPtr limitPtr
  (writeAt r.1 r.2 [0], some r.2)

/-- Function `vbufPrintf` (lines 69-105).  `txt` is the expansion of the
format string with its arguments. -/
def vbufPrintf (mem : List Nat) (bufPtr : Option Nat) (limitPtr : Nat) (txt : List Nat) :
    List Nat × Option Nat :=
  match bufPtr with
  | none => (mem, none)
  | some p =>
    let len := toInt32 ((limitPtr : Int) - (p : Int))
    if len ≤ 0 then (mem, none)
    else if len > 4 then
      let len := len - 4
      let r := vsnprintf mem p (len + 1).toNat txt
      if r.2 > len then appendEllipsis r.1 (p + len.toNat) limitPtr
      else if r.2 ≥ 0 then (r.1, some (p + r.2.toNat))
      else (writeAt r.1 p [0], some p)
    else appendEllipsis mem p limitPtr

/-- Function `bufPrintf` (lines 108-114): the variadic front of `vbufPrintf`. -/
def bufPrintf (mem : List Nat) (bufPtr : Option Nat) (limitPtr : Nat) (txt : List Nat) :
    List Nat × Option Nat :=
  vbufPrintf mem bufPtr limitPtr txt

/-- A run of `bufPrintf` calls on one buffer, each one starting at the
pointer the previous one returned. -/
def appendAll (mem : List Nat) (bufPtr : Option Nat) (limitPtr : Nat) :
    List (List Nat) → List Nat × Option Nat
  | [] => (mem, bufPtr)
  | txt :: rest =>
    let r := bufPrintf mem bufPtr limitPtr txt
    appendAll r.1 r.2 limitPtr rest

/-- What `vsnprintf` contributes for the expansion `txt`: the text itself,
or nothing when the call fails. -/
def printed (txt : List Nat) : List Nat :=
  if INT_MAX < txt.length then [] else txt

/-- Modelled from the spec: the header `idn-hello.h`, which declares the
command codes, the port and the two packet structures, is not among the
sources.  `IDNHDR_PACKET` is the header of the spec: `command` at offset 0,
`flags` at offset 1, the 16 bit `sequence` at offset 2, four bytes in all.
Of `IDNHDR_SCAN_RESPONSE` the code uses its size and the places of
`structSize`, `unitID` and `hostName`; `structSize` is its first byte, the
other places and the sizes are the fields of this record. -/
structure Layout where
  /-- Constant `IDNCMD_SCAN_REQUEST`. -/
  cmdScanRequest : Nat
  /-- Constant `IDNCMD_SCAN_RESPONSE`. -/
  cmdScanResponse : Nat
  /-- Constant `IDNVAL_HELLO_UDP_PORT`. -/
  udpPort : Nat
  /-- Value of `sizeof(IDNHDR_SCAN_RESPONSE)`. -/
  bodySize : Nat
  /-- Offset of `unitID` in the body. -/
  unitIDOff : Nat
  /-- Number of bytes of `unitID`, the length byte included. -/
  unitIDSize : Nat
  /-- Offset of `hostName` in the body. -/
  hostNameOff : Nat
  /-- Number of bytes of `hostName`. -/
  hostNameSize : Nat

/-- Modelled from the spec: `sizeof(IDNHDR_PACKET)`, a header of one byte
`command`, one byte `flags` and a 16 bit `sequence`. -/
def hdrSize : Nat := 4

/-- A layout whose fields are bytes and lie inside the body, `unitID` after
`structSize` and `hostName` after `unitID`. -/
def Layout.wf (L : Layout) : Prop :=
  L.cmdScanRequest < 256 ∧ L.cmdScanResponse < 256 ∧ L.bodySize < 256 ∧
  1 ≤ L.unitIDOff ∧ 1 ≤ L.unitIDSize ∧ L.unitIDOff + L.unitIDSize ≤ L.hostNameOff ∧
  L.hostNameOff + L.hostNameSize ≤ L.bodySize

/-- Whether a layout is well-formed can be computed. -/
instance (L : Layout) : Decidable L.wf := by
  unfold Layout.wf
  infer_instance

/-- Modelled from the spec: a layout with the offsets of the spec's table
(`structSize` at packet offset 4, `unitID` at 5, `hostName` in the slot after
it).  The spec leaves the command codes, the port and the two capacities
open; the values here are those of the IDN-Hello protocol. -/
def specLayout : Layout :=
  { cmdScanRequest := 16, cmdScanResponse := 17, udpPort := 7255, bodySize := 37,
    unitIDOff := 1, unitIDSize := 16, hostNameOff := 17, hostNameSize := 20 }

/-- Load of one byte; a cell outside the modelled memory reads as 0. -/
def peek (mem : List Nat) (a : Nat) : Nat :=
  mem.getD a 0

/-- Exchange of the two bytes of a 16 bit value. -/
def bswap16 (x : Nat) : Nat :=
  x % 256 * 256 + x / 256 % 256

/-- Library function `htons`; `le` says that the host is little-endian. -/
def htons (le : Bool) (x : Nat) : Nat :=
  if le then bswap16 x else x % 65536

/-- The two bytes a host keeps in memory for the 16 bit value `v`. -/
def storeU16 (le : Bool) (v : Nat) : List Nat :=
  if le then [v % 256, v / 256 % 256] else [v / 256 % 256, v % 256]

/-- The 16 bit value a host reads from the two bytes at address `a`. -/
def loadU16 (le : Bool) (mem : List Nat) (a : Nat) : Nat :=
  if le then peek mem a + 256 * peek mem (a + 1) else 256 * peek mem a + peek mem (a + 1)

/-- Line 200: the value of `sendPacketHdr.sequence` for the random number
`r`, that is `htons(rand() & 0xFFFF)`. -/
def requestSequence (le : Bool) (r : Nat) : Nat :=
  htons le (r &&& 0xFFFF)

/-- Lines 197-200: the bytes of `sendPacketHdr` as `sendto` gets them. -/
def sendPacketHdr (L : Layout) (le : Bool) (r : Nat) : List Nat :=
  [L.cmdScanRequest % 256, 0] ++ storeU16 le (requestSequence le r)

/-- The messages of `logError`, with the values their formats print. -/
inductive Diag
  /-- Message "inet_ntop() failed (error: %d)". -/
  | inetNtop (errno : Int)
  /-- Message "socket() failed (error: %d)". -/
  | socket (errno : Int)
  /-- Message "setsockopt(broadcast) failed (error: %d)". -/
  | setsockopt (errno : Int)
  /-- Message "bind() failed (error: %d)". -/
  | bind (errno : Int)
  /-- Message "sendto() failed (error: %d)". -/
  | sendto (errno : Int)
  /-- Message "select() failed (error: %d)". -/
  | select (errno : Int)
  /-- Message "recvfrom() failed (error: %d)". -/
  | recvfrom (errno : Int)
  /-- Message "%s: Invalid packet size %u" (wrong length). -/
  | invalidPacketSize (addr : List Nat) (nBytes : Nat)
  /-- Message "%s: Invalid command 0x%02X" (wrong command). -/
  | invalidCommand (addr : List Nat) (command : Nat)
  /-- Message "%s: Invalid sequence" (wrong sequence). -/
  | invalidSequence (addr : List Nat)
  /-- Message "%s: Invalid scan response header size %u" (wrong body size). -/
  | invalidResponseSize (addr : List Nat) (structSize : Nat)
  /-- Message "close() failed (error: %d)". -/
  | close (errno : Int)
  deriving DecidableEq

/-- The timeout of `select`, a `struct timeval`. -/
structure Timeval where
  /-- Field `tv_sec`. -/
  sec : Nat
  /-- Field `tv_usec`. -/
  usec : Nat
  deriving DecidableEq

/-- The time a `Timeval` stands for, in microseconds. -/
def Timeval.usecs (tv : Timeval) : Nat :=
  tv.sec * 1000000 + tv.usec

/-- What a session does, in the order in which it does it. -/
inductive Event
  /-- Line 159: `logInfo("Scanning interface %s (IP4: %s)", ...)`. -/
  | logInfoScan (ifName ifAddr : List Nat)
  /-- Line 300: `logInfo("%s at %s", logString, recvAddrString)`. -/
  | logInfoRecord (logString recvAddr : List Nat)
  /-- A call of `logError`. -/
  | logError (d : Diag)
  /-- Line 162: `plt_sockOpen`. -/
  | sockOpen
  /-- Line 170: `plt_sockSetBroadcast`. -/
  | setBroadcast (fd : Int)
  /-- Line 183: `bind` to the interface address, port 0. -/
  | bind (fd : Int) (addr : Nat)
  /-- Line 202: `sendto` the broadcast address. -/
  | sendto (fd : Int) (packet : List Nat) (port : Nat)
  /-- Line 224: `select` with the budget `tv`, which returned after `waited`
  microseconds. -/
  | select (fd : Int) (tv : Timeval) (waited : Nat)
  /-- Line 240: `recvfrom`. -/
  | recvfrom (fd : Int)
  /-- Line 308: `plt_sockClose`. -/
  | close (fd : Int)
  deriving DecidableEq

/-- The answer of a platform call: its result and the error code that
`plt_sockGetLastError` reports after it. -/
structure Call where
  /-- The value the call returns. -/
  rc : Int
  /-- The error code after the call. -/
  errno : Int
  deriving DecidableEq

/-- The answer of `inet_ntop`: the address as text, or a null pointer. -/
inductive Ntop
  /-- The text of the address. -/
  | ok (text : List Nat)
  /-- A null pointer, with the error code. -/
  | fail (errno : Int)
  deriving DecidableEq

/-- The answer of `recvfrom`. -/
inductive Recv
  /-- A datagram. -/
  | datagram (bytes : List Nat)
  /-- A negative result, with the error code. -/
  | fail (errno : Int)
  deriving DecidableEq

/-- What the platform does during one pass of the collection loop. -/
structure Iter where
  /-- Microseconds from the start of the wait until the socket is readable
  or `select` fails. -/
  after : Nat
  /-- Error code of `select` when it fails, `none` when the socket gets
  readable. -/
  selectError : Option Int
  /-- Answer of `recvfrom`. -/
  recv : Recv
  /-- Answer of `inet_ntop` for the sender. -/
  ntop : Ntop
  /-- What is on the stack where `logString` is allocated. -/
  stack : List Nat
  deriving DecidableEq

/-- The answers of the platform to one session. -/
structure Env where
  /-- Answer of `inet_ntop` for the interface address. -/
  ntopIf : Ntop
  /-- Answer of `plt_sockOpen`. -/
  sockOpen : Call
  /-- Answer of `plt_sockSetBroadcast`. -/
  setBroadcast : Call
  /-- Answer of `bind`. -/
  bind : Call
  /-- Answer of `rand`, a number from 0 to `RAND_MAX`. -/
  rand : Nat
  /-- Answer of `sendto`. -/
  sendto : Call
  /-- The passes of the collection loop; after the last one nothing more
  arrives. -/
  iters : List Iter
  /-- Answer of `plt_sockClose`. -/
  close : Call
  /-- What the platform's `select` does with its timeout: `true` when it
  writes the time not slept back into it, as Linux does, `false` when it
  leaves it as it was, as POSIX allows and Windows does. -/
  selectWritesBack : Bool
  deriving DecidableEq

/-- The result of `select`: the number of ready descriptors, the timeout it
leaves behind and the time it took. -/
structure Selected where
  /-- The value `select` returns. -/
  numReady : Int
  /-- The timeout after the call. -/
  tv : Timeval
  /-- Microseconds spent in the call. -/
  waited : Nat
  deriving DecidableEq

/-- Library function `select` on the one socket.  `none` is a wait during
which nothing arrives.  The call returns when the socket is readable, when
it fails, or when the time of the timeout is over.  With `writesBack` the
timeout is updated to the time not slept (Linux); without it the timeout is
left as it was (allowed by POSIX, and the behaviour of Windows). -/
def select (writesBack : Bool) (tv : Timeval) : Option (Nat × Option Int) → Selected
  | none =>
    { numReady := 0, tv := if writesBack then ⟨0, 0⟩ else tv, waited := tv.usecs }
  | some (after, err) =>
    if after < tv.usecs then
      { numReady := if err.isSome then -1 else 1,
        tv :=
          if writesBack then ⟨(tv.usecs - after) / 1000000, (tv.usecs - after) % 1000000⟩
          else tv,
        waited := after }
    else { numReady := 0, tv := if writesBack then ⟨0, 0⟩ else tv, waited := tv.usecs }

/-- Library function `recvfrom` into `gbl_packetBuffer`, which has 0x10000
cells: the datagram replaces the head of the buffer. -/
def recvInto (buf : List Nat) (bytes : List Nat) : List Nat :=
  writeAt buf 0 (bytes.take 65536)

/-- The 200 cells of `logString` as the stack holds them at line 282. -/
def allocLog (stack : List Nat) : List Nat :=
  (stack ++ List.replicate 200 0).take 200

/-- One uppercase hexadecimal digit. -/
def hexDigit (d : Nat) : Nat :=
  if d < 10 then 48 + d else 55 + d

/-- The expansion of "%02X" for the byte in a cell. -/
def fmt02X (b : Nat) : List Nat :=
  [hexDigit (b / 16 % 16), hexDigit (b % 16)]

/-- Lines 254-279: the four checks on a received datagram of `nBytes`
bytes in `buf`; `seq` is `sendPacketHdr.sequence`.  The result is the
diagnostic of the check that fails, `none` when all pass. -/
def checkResponse (L : Layout) (le : Bool) (buf : List Nat) (nBytes : Nat) (seq : Nat)
    (recvAddr : List Nat) : Option Diag :=
  if nBytes ≠ hdrSize + L.bodySize then some (.invalidPacketSize recvAddr nBytes)
  else if peek buf 0 ≠ L.cmdScanResponse then some (.invalidCommand recvAddr (peek buf 0))
  else if loadU16 le buf 2 ≠ seq then some (.invalidSequence recvAddr)
  else if peek buf hdrSize ≠ L.bodySize then
    some (.invalidResponseSize recvAddr (peek buf hdrSize))
  else none

/-- Lines 287-291: the loop over the unit identifier.  `st` is the log
buffer with `logPtr`; `fuel` bounds the passes. -/
def unitIDLoop (buf : List Nat) :
    Nat → Nat → Nat → Nat → List Nat × Option Nat → List Nat × Option Nat
  | 0, _, _, _, st => st
  | fuel + 1, src, i, unitIDLen, st =>
    if i < unitIDLen then
      let st1 := bufPrintf st.1 st.2 200 (fmt02X (peek buf src))
      let st2 := if i = 0 then bufPrintf st1.1 st1.2 200 [45] else st1
      unitIDLoop buf fuel (src + 1) (i + 1) unitIDLen st2
    else st

/-- Lines 281-297: the log buffer after the unit identifier and the host
name are printed into it.  `logString` is the buffer as allocated. -/
def formatRecord (L : Layout) (buf : List Nat) (logString : List Nat) : List Nat :=
  let unitIDLen := peek buf (hdrSize + L.unitIDOff)
  let st := unitIDLoop buf unitIDLen (hdrSize + L.unitIDOff + 1) 0 unitIDLen
    (logString, some 0)
  let st :=
    if peek buf (hdrSize + L.hostNameOff) ≠ 0 then
      bufPrintf st.1 st.2 200 ([40] ++ cstr (buf.drop (hdrSize + L.hostNameOff)) ++ [41])
    else st
  st.1

/-- Lines 254-300 for one datagram in `buf`: the diagnostic of the failing
check, or the text of `logString` that line 300 prints. -/
def handleDatagram (L : Layout) (le : Bool) (buf : List Nat) (nBytes : Nat) (seq : Nat)
    (recvAddr : List Nat) (stack : List Nat) : Except Diag (List Nat) :=
  match checkResponse L le buf nBytes seq recvAddr with
  | some d => .error d
  | none => .ok (cstr (formatRecord L buf (allocLog stack)))

/-- Lines 221-301: the collection loop.  `wb` says whether the platform's
`select` writes the time not slept back into `tv`; the loop itself never
assigns `tv`.  The result is the events of the loop and `gbl_packetBuffer`
after it. -/
def collect (L : Layout) (le : Bool) (wb : Bool) (fd : Int) (seq : Nat) :
    List Iter → Timeval → List Nat → List Event × List Nat
  | [], tv, buf => ([.select fd tv (select wb tv none).waited], buf)
  | it :: rest, tv, buf =>
    let s := select wb tv (some (it.after, it.selectError))
    if s.numReady < 0 then
      ([.select fd tv s.waited, .logError (.select (it.selectError.getD 0))], buf)
    else if s.numReady = 0 then ([.select fd tv s.waited], buf)
    else
      match it.recv with
      | .fail e => ([.select fd tv s.waited, .recvfrom fd, .logError (.recvfrom e)], buf)
      | .datagram bytes =>
        let buf1 := recvInto buf bytes
        let nBytes := min bytes.length 65536
        match it.ntop with
        | .fail e =>
          ([.select fd tv s.waited, .recvfrom fd, .logError (.inetNtop e)], buf1)
        | .ok recvAddr =>
          match handleDatagram L le buf1 nBytes seq recvAddr it.stack with
          | .error d => ([.select fd tv s.waited, .recvfrom fd, .logError d], buf1)
          | .ok logString =>
            let r := collect L le wb fd seq rest s.tv buf1
            (.select fd tv s.waited :: .recvfrom fd :: .logInfoRecord logString recvAddr :: r.1,
             r.2)

/-- Lines 150-303: the body of the `do ... while(0)`.  The result is
`fdSocket` when the body is left, the events and `gbl_packetBuffer`. -/
def scanBody (L : Layout) (le : Bool) (env : Env) (ifName : Option (List Nat))
    (ifIP4Addr : Nat) (buf : List Nat) : Int × List Event × List Nat :=
  match env.ntopIf with
  | .fail e => (-1, [.logError (.inetNtop e)], buf)
  | .ok ifAddrString =>
    let fdSocket := env.sockOpen.rc
    if fdSocket < 0 then
      (fdSocket,
       [.logInfoScan (ifName.getD [60, 63, 62]) ifAddrString, .sockOpen,
        .logError (.socket env.sockOpen.errno)], buf)
    else if env.setBroadcast.rc < 0 then
      (fdSocket,
       [.logInfoScan (ifName.getD [60, 63, 62]) ifAddrString, .sockOpen,
        .setBroadcast fdSocket, .logError (.setsockopt env.setBroadcast.errno)], buf)
    else if env.bind.rc < 0 then
      (fdSocket,
       [.logInfoScan (ifName.getD [60, 63, 62]) ifAddrString, .sockOpen,
        .setBroadcast fdSocket, .bind fdSocket ifIP4Addr,
        .logError (.bind env.bind.errno)], buf)
    else if env.sendto.rc < 0 then
      (fdSocket,
       [.logInfoScan (ifName.getD [60, 63, 62]) ifAddrString, .sockOpen,
        .setBroadcast fdSocket, .bind fdSocket ifIP4Addr,
        .sendto fdSocket (sendPacketHdr L le env.rand) L.udpPort,
        .logError (.sendto env.sendto.errno)], buf)
    else
      let msTimeout := 500
      let tv : Timeval := ⟨msTimeout / 1000, msTimeout % 1000 * 1000⟩
      let r := collect L le env.selectWritesBack fdSocket (requestSequence le env.rand)
        env.iters tv buf
      (fdSocket,
       [.logInfoScan (ifName.getD [60, 63, 62]) ifAddrString, .sockOpen,
        .setBroadcast fdSocket, .bind fdSocket ifIP4Addr,
        .sendto fdSocket (sendPacketHdr L le env.rand) L.udpPort] ++ r.1, r.2)

/-- Lines 305-309: the socket is closed when it was opened. -/
def closeSocket (env : Env) (fdSocket : Int) : List Event :=
  if fdSocket ≥ 0 then
    if env.close.rc ≠ 0 then [.close fdSocket, .logError (.close env.close.errno)]
    else [.close fdSocket]
  else []

/-- Function `idnHelloScan` (lines 145-310): the events of one session and
`gbl_packetBuffer` after it. -/
def idnHelloScan (L : Layout) (le : Bool) (env : Env) (ifName : Option (List Nat))
    (ifIP4Addr : Nat) (buf : List Nat) : List Event × List Nat :=
  let r := scanBody L le env ifName ifIP4Addr buf
  (r.2.1 ++ closeSocket env r.1, r.2.2)

/-- The event is a close of the socket. -/
def Event.isClose : Event → Bool
  | .close _ => true
  | _ => false

/-- The event is a call on the socket. -/
def Event.isSocketOp : Event → Bool
  | .sockOpen => true
  | .setBroadcast _ => true
  | .bind _ _ => true
  | .sendto _ _ _ => true
  | .select _ _ _ => true
  | .recvfrom _ => true
  | .close _ => true
  | _ => false

/-- The event is one that the collection loop produces. -/
def Event.inLoop : Event → Bool
  | .select _ _ _ => true
  | .recvfrom _ => true
  | .logError _ => true
  | .logInfoRecord _ _ => true
  | _ => false

/-- The device records among the events: the text of `logString` and the
sender's address of every line that line 300 prints. -/
def records : List Event → List (List Nat × List Nat)
  | [] => []
  | .logInfoRecord logString recvAddr :: rest => (logString, recvAddr) :: records rest
  | _ :: rest => records rest

/-- The waits among the events: the budget given to `select` and the time
it took. -/
def selects : List Event → List (Timeval × Nat)
  | [] => []
  | .select _ tv waited :: rest => (tv, waited) :: selects rest
  | _ :: rest => selects rest

/-- Every wait gets the budget that the waits before it left of `budget`
microseconds, and takes no longer than that. -/
def budgetsThreaded : Nat → List (Timeval × Nat) → Prop
  | _, [] => True
  | budget, (tv, waited) :: rest =>
    tv.usecs = budget ∧ waited ≤ budget ∧ budgetsThreaded (budget - waited) rest

/-- Whether the budgets are threaded can be computed. -/
instance budgetsThreadedDecidable :
    (budget : Nat) → (ws : List (Timeval × Nat)) → Decidable (budgetsThreaded budget ws)
  | _, [] => isTrue trivial
  | budget, (tv, waited) :: rest =>
    have := budgetsThreadedDecidable (budget - waited) rest
    inferInstanceAs (Decidable
      (tv.usecs = budget ∧ waited ≤ budget ∧ budgetsThreaded (budget - waited) rest))

/-- The platform delivers a datagram in this pass: `select` does not fail,
`recvfrom` returns a datagram and `inet_ntop` its sender. -/
def Iter.delivers (it : Iter) : Bool :=
  it.selectError.isNone
  && (match it.recv with | .datagram _ => true | .fail _ => false)
  && (match it.ntop with | .ok _ => true | .fail _ => false)

/-- The datagram of this pass passes the four checks of a session whose
request carried `seq`. -/
def Iter.accepted (L : Layout) (le : Bool) (seq : Nat) (it : Iter) : Bool :=
  match it.recv with
  | .datagram bytes => (checkResponse L le bytes (min bytes.length 65536) seq []).isNone
  | .fail _ => false

/-- The records of the valid datagrams among the passes `its`, in the order
of arrival, the invalid ones being skipped; `buf` is `gbl_packetBuffer`
before the first of them. -/
def validRecords (L : Layout) (le : Bool) (seq : Nat) :
    List Iter → List Nat → List (List Nat × List Nat)
  | [], _ => []
  | it :: rest, buf =>
    match it.recv, it.ntop with
    | .datagram bytes, .ok recvAddr =>
      match handleDatagram L le (recvInto buf bytes) (min bytes.length 65536) seq recvAddr
          it.stack with
      | .ok logString =>
        (logString, recvAddr) :: validRecords L le seq rest (recvInto buf bytes)
      | .error _ => validRecords L le seq rest (recvInto buf bytes)
    | .datagram bytes, .fail _ => validRecords L le seq rest (recvInto buf bytes)
    | .fail _, _ => validRecords L le seq rest buf

/-- The `n` bytes that a loop reading `*src++` loads, starting at `src`. -/
def readBytes (buf : List Nat) (src n : Nat) : List Nat :=
  (List.range n).map (fun j => peek buf (src + j))

/-- The unit identifier that lines 285-291 read: `unitID[0]` bytes, starting
at `unitID[1]`. -/
def unitID (L : Layout) (buf : List Nat) : List Nat :=
  readBytes buf (hdrSize + L.unitIDOff + 1) (peek buf (hdrSize + L.unitIDOff))

/-- The host name that line 296 reads: the C string at `hostName`.  It is
empty exactly when the test `hostName[0]` of line 294 fails. -/
def hostName (L : Layout) (buf : List Nat) : List Nat :=
  cstr (buf.drop (hdrSize + L.hostNameOff))

/-- The expansions of the calls of lines 289-290 for the identifier `u`. -/
def unitIDTexts : List Nat → List (List Nat)
  | [] => []
  | b :: bs => fmt02X b :: [45] :: bs.map fmt02X

/-- The expansion of the call of line 296 for the host name `h`, when it is
made. -/
def hostNameTexts (h : List Nat) : List (List Nat) :=
  if h ≠ [] then [[40] ++ h ++ [41]] else []

/-- The text of a record as the spec words it: the hex pairs of the
identifier with one '-' after the first pair, then the host name in
parentheses when it is not empty. -/
def recordText (u h : List Nat) : List Nat :=
  (match u with
    | [] => []
    | b :: bs => fmt02X b ++ [45] ++ (bs.map fmt02X).flatten)
  ++ (if h ≠ [] then [40] ++ h ++ [41] else [])

/-- A text in the 200 cells of `logString`: whole when it has at most 196
characters, otherwise its first 196 characters and three dots. -/
def clip (text : List Nat) : List Nat :=
  if text.length ≤ 196 then text else text.take 196 ++ [46, 46, 46]

/-- Equality of the results of `handleDatagram` can be decided. -/
instance : DecidableEq (Except Diag (List Nat)) := fun a b =>
  match a, b with
  | .ok x, .ok y =>
    if h : x = y then isTrue (by rw [h]) else isFalse (by intro e; cases e; exact h rfl)
  | .error x, .error y =>
    if h : x = y then isTrue (by rw [h]) else isFalse (by intro e; cases e; exact h rfl)
  | .ok _, .error _ => isFalse (by intro e; cases e)
  | .error _, .ok _ => isFalse (by intro e; cases e)

/-- A response as the spec's wire table lays it out, for the round trip:
the header with SCAN_RESPONSE, `flags` and the sequence `s` in network byte
order, `structSize`, the unit identifier `u` behind its length byte and the
host name `h` with its terminator.  All other bytes of the packet, the
padding of the two fields included, come from `pad`. -/
def encodeResponse (L : Layout) (pad : List Nat) (flags s : Nat) (u h : List Nat) : List Nat :=
  let p0 := (pad ++ List.replicate (hdrSize + L.bodySize) 0).take (hdrSize + L.bodySize)
  let p1 := writeAt p0 0 [L.cmdScanResponse, flags, s / 256 % 256, s % 256, L.bodySize]
  let p2 := writeAt p1 (hdrSize + L.unitIDOff) (u.length :: u)
  writeAt p2 (hdrSize + L.hostNameOff) (h ++ [0])

/-- The characters one call of `vbufPrintf` adds for the expansion `txt`
when `room` cells are left before the limit. -/
def appended (room : Nat) (txt : List Nat) : List Nat :=
  if 4 < room then
    if INT_MAX < txt.length then []
    else if txt.length ≤ room - 4 then txt
    else txt.take (room - 4) ++ [46, 46, 46]
  else List.replicate (room - 1) 46

/-- The string a buffer of `L` cells holds after the calls for `txts`. -/
def content (L : Nat) (txts : List (List Nat)) : List Nat :=
  txts.foldl (fun S txt => S ++ appended (L - S.length) txt) []

/-- The text of a run of calls: the expansions that `vsnprintf` delivered,
one after the other. -/
def joined (txts : List (List Nat)) : List Nat :=
  (txts.map printed).flatten

/-- The datagram used to show C1 at work: a response of the spec layout
with sequence 0xABCD, unit identifier AA BB CC and host name "dev1". -/
def sampleResponse : List Nat :=
  [17, 0, 171, 205, 37, 3, 170, 187, 204, 0, 0, 0, 0, 0, 0, 0, 0, 0, 0, 0, 0,
   100, 101, 118, 49, 0, 0, 0, 0, 0, 0, 0, 0, 0, 0, 0, 0, 0, 0, 0, 0]

/-- An answer of a Linux platform in which everything succeeds and nothing
arrives, used to build examples. -/
def quietEnv : Env :=
  { ntopIf := .ok [49, 48, 46, 48, 46, 48, 46, 49], sockOpen := ⟨3, 0⟩,
    setBroadcast := ⟨0, 0⟩, bind := ⟨0, 0⟩, rand := 0x1234ABCD, sendto := ⟨4, 0⟩,
    iters := [], close := ⟨0, 0⟩, selectWritesBack := true }

/-- The environment that refutes C8: a platform whose `select` leaves the
timeout unchanged, on which everything succeeds and three valid responses
arrive, each 400 ms after the start of its wait. -/
def slowRepliesEnv : Env :=
  { quietEnv with
    selectWritesBack := false
    iters := [⟨400000, none, .datagram sampleResponse, .ok [55], []⟩,
              ⟨400000, none, .datagram sampleResponse, .ok [56], []⟩,
              ⟨400000, none, .datagram sampleResponse, .ok [57], []⟩] }

/-- The event is a `sendto`. -/
def Event.isSendto : Event → Bool
  | .sendto _ _ _ => true
  | _ => false

/-- The environment that refutes C2: everything succeeds, a datagram with
a foreign sequence arrives after 1 ms and a valid response 1 ms later. -/
def malformedFirstEnv : Env :=
  { quietEnv with
    iters := [⟨1000, none, .datagram (sampleResponse.set 3 206), .ok [55], []⟩,
              ⟨1000, none, .datagram sampleResponse, .ok [56], []⟩] }

/-- A response of the spec layout with sequence 0xABCD whose unit
identifier has length 0 and whose host name is empty. -/
def anonymousResponse : List Nat :=
  [17, 0, 171, 205, 37] ++ List.replicate 36 0

/-- A response of the spec layout with sequence 0xABCD, unit identifier AA
and a host name that fills the 20 bytes of its field. -/
def fullNameResponse : List Nat :=
  [17, 0, 171, 205, 37, 1, 170] ++ List.replicate 14 0
    ++ [49, 50, 51, 52, 53, 54, 55, 56, 57, 48, 49, 50, 51, 52, 53, 54, 55, 56, 57, 48]

/-! ## Lemmas -/


theorem length_writeAt (mem : List Nat) (p : Nat) (bs : List Nat)
    (h : p + bs.length ≤ mem.length) : (writeAt mem p bs).length = mem.length := by
  simp only [writeAt, List.length_append, List.length_take, List.length_drop]
  omega

theorem take_writeAt (mem : List Nat) (p a : Nat) (bs : List Nat) (h : a ≤ p)
    (hp : p ≤ mem.length) : (writeAt mem p bs).take a = mem.take a := by
  simp only [writeAt, List.append_assoc]
  rw [List.take_append_of_le_length (by simp; omega), List.take_take]
  congr 1; omega

theorem take_writeAt_end (mem : List Nat) (p : Nat) (bs : List Nat) (hp : p ≤ mem.length) :
    (writeAt mem p bs).take (p + bs.length) = mem.take p ++ bs := by
  have h1 : (mem.take p ++ bs).length = p + bs.length := by simp; omega
  unfold writeAt
  rw [← h1, List.take_left]

theorem drop_writeAt (mem : List Nat) (p a : Nat) (bs : List Nat) (h : p + bs.length ≤ a)
    (hp : p + bs.length ≤ mem.length) : (writeAt mem p bs).drop a = mem.drop a := by
  have h1 : (mem.take p ++ bs).length = p + bs.length := by simp; omega
  have h2 : a = (mem.take p ++ bs).length + (a - (p + bs.length)) := by omega
  unfold writeAt
  rw [h2, ← List.drop_drop, List.drop_left, List.drop_drop, h1]

theorem writeAt_writeAt (mem : List Nat) (p : Nat) (a c b : List Nat)
    (hm : p + a.length + c.length ≤ mem.length) (hc : c.length ≤ b.length) :
    writeAt (writeAt mem p (a ++ c)) (p + a.length) b = writeAt mem p (a ++ b) := by
  have hp : p ≤ mem.length := by omega
  have e1 : (writeAt mem p (a ++ c)).take (p + a.length) = mem.take p ++ a := by
    have h1 : (mem.take p ++ a).length = p + a.length := by simp; omega
    unfold writeAt
    rw [← h1]
    simp only [List.append_assoc]
    rw [← List.append_assoc, List.take_left]
  have e2 : (writeAt mem p (a ++ c)).drop (p + a.length + b.length)
      = mem.drop (p + a.length + b.length) :=
    drop_writeAt mem p _ (a ++ c) (by simp; omega) (by simp; omega)
  show (writeAt mem p (a ++ c)).take (p + a.length) ++ b
      ++ (writeAt mem p (a ++ c)).drop (p + a.length + b.length) = _
  rw [e1, e2]
  simp [writeAt, List.append_assoc, Nat.add_assoc]

theorem getElem_writeAt_end (mem : List Nat) (p : Nat) (xs : List Nat) (v : Nat)
    (hp : p ≤ mem.length) : (writeAt mem p (xs ++ [v]))[p + xs.length]? = some v := by
  have h1 : (mem.take p ++ xs).length = p + xs.length := by simp; omega
  unfold writeAt
  rw [← h1]
  simp only [List.append_assoc]
  rw [← List.append_assoc, List.getElem?_append_right (le_refl _)]
  simp

theorem writeAt_nil (mem : List Nat) (p : Nat) : writeAt mem p [] = mem := by
  simp [writeAt]

theorem ellipsisLoop_eq (fuel : Nat) : ∀ (mem : List Nat) (p limit : Nat),
    p < limit → limit ≤ mem.length → limit - 1 - p ≤ fuel →
    ellipsisLoop fuel mem p limit
      = (writeAt mem p (List.replicate (limit - 1 - p) 46), limit - 1) := by
  induction fuel with
  | zero =>
    intro mem p limit h1 h2 h3
    have h4 : limit - 1 - p = 0 := by omega
    have h5 : p = limit - 1 := by omega
    simp [ellipsisLoop, h4, writeAt_nil, h5]
  | succ n ih =>
    intro mem p limit h1 h2 h3
    unfold ellipsisLoop
    by_cases hc : (limit : Int) - (p : Int) > 1
    · rw [if_pos hc]
      have hlen : (writeAt mem p [46]).length = mem.length :=
        length_writeAt mem p [46] (by simp; omega)
      rw [ih (writeAt mem p [46]) (p + 1) limit (by omega) (by omega) (by omega)]
      have h6 : limit - 1 - p = (limit - 1 - (p + 1)) + 1 := by omega
      have h7 := writeAt_writeAt mem p [46] [] (List.replicate (limit - 1 - (p + 1)) 46)
        (by simp; omega) (by simp)
      simp only [List.append_nil, List.length_singleton] at h7
      rw [h7, h6, List.replicate_succ]
      simp
    · rw [if_neg hc]
      have h4 : limit - 1 - p = 0 := by omega
      have h5 : p = limit - 1 := by omega
      simp [h4, writeAt_nil, h5]

theorem appendEllipsis_eq (mem : List Nat) (p limit : Nat) (h1 : p < limit)
    (h2 : limit ≤ mem.length) :
    appendEllipsis mem p limit
      = (writeAt mem p (List.replicate (limit - 1 - p) 46 ++ [0]), some (limit - 1)) := by
  unfold appendEllipsis
  rw [ellipsisLoop_eq (limit - p) mem p limit h1 h2 (by omega)]
  have h7 := writeAt_writeAt mem p (List.replicate (limit - 1 - p) 46) [] [0]
    (by simp; omega) (by simp)
  simp only [List.append_nil, List.length_replicate] at h7
  have h8 : p + (limit - 1 - p) = limit - 1 := by omega
  rw [h8] at h7
  simp [h7]

theorem toInt32_of_range (x : Int) (h1 : 0 ≤ x) (h2 : x ≤ 2147483647) : toInt32 x = x := by
  unfold toInt32
  omega

theorem appended_length (room : Nat) (txt : List Nat) (h : 1 ≤ room) :
    (appended room txt).length + 1 ≤ room := by
  unfold appended
  split_ifs <;> first | omega | (simp; omega)

/-- One call on a pointer inside the buffer is one store of the appended
characters and their terminator. -/
theorem vbufPrintf_eq (mem : List Nat) (p limit : Nat) (txt : List Nat)
    (h1 : p < limit) (h2 : limit ≤ mem.length) (h3 : limit - p ≤ INT_MAX) :
    vbufPrintf mem (some p) limit txt
      = (writeAt mem p (appended (limit - p) txt ++ [0]),
         some (p + (appended (limit - p) txt).length)) := by
  have hlen : toInt32 ((limit : Int) - (p : Int)) = ((limit - p : Nat) : Int) := by
    rw [toInt32_of_range] <;> unfold INT_MAX at h3 <;> omega
  unfold vbufPrintf
  simp only [hlen]
  have hpos : ¬ (((limit - p : Nat) : Int) ≤ 0) := by omega
  rw [if_neg hpos]
  by_cases h4 : 4 < limit - p
  · have h4i : ((limit - p : Nat) : Int) > 4 := by omega
    rw [if_pos h4i]
    have hsz : (((limit - p : Nat) : Int) - 4 + 1).toNat = limit - p - 4 + 1 := by omega
    have hav : (((limit - p : Nat) : Int) - 4).toNat = limit - p - 4 := by omega
    simp only [hsz, hav]
    unfold appended vsnprintf
    rw [if_pos h4]
    by_cases h5 : INT_MAX < txt.length
    · simp only [if_pos h5]
      have : ¬ ((-1 : Int) > ((limit - p : Nat) : Int) - 4) := by omega
      rw [if_neg this]
      have : ¬ ((-1 : Int) ≥ 0) := by omega
      rw [if_neg this]
      simp
    · simp only [if_neg h5, Nat.add_sub_cancel, Nat.succ_ne_zero, if_false]
      by_cases h6 : txt.length ≤ limit - p - 4
      · have : ¬ ((txt.length : Int) > ((limit - p : Nat) : Int) - 4) := by omega
        rw [if_neg this]
        have : (txt.length : Int) ≥ 0 := by omega
        rw [if_pos this, if_pos h6]
        simp [List.take_of_length_le h6]
      · have : (txt.length : Int) > ((limit - p : Nat) : Int) - 4 := by omega
        rw [if_pos this, if_neg h6]
        have hl : (txt.take (limit - p - 4)).length = limit - p - 4 := by
          simp; omega
        have hm : (writeAt mem p (txt.take (limit - p - 4) ++ [0])).length = mem.length :=
          length_writeAt _ _ _ (by simp; omega)
        rw [appendEllipsis_eq _ _ _ (by omega) (by omega)]
        have h8 : limit - 1 - (p + (limit - p - 4)) = 3 := by omega
        rw [h8]
        have h7 := writeAt_writeAt mem p (txt.take (limit - p - 4)) [0]
          (List.replicate 3 46 ++ [0]) (by simp; omega) (by simp)
        rw [hl] at h7
        rw [h7]
        simp [List.replicate]
        omega
  · have h4i : ¬ (((limit - p : Nat) : Int) > 4) := by omega
    rw [if_neg h4i, appendEllipsis_eq mem p limit h1 h2]
    unfold appended
    rw [if_neg h4]
    have e : limit - p - 1 = limit - 1 - p := by omega
    rw [e, List.length_replicate]
    have e2 : p + (limit - 1 - p) = limit - 1 := by omega
    rw [e2]


theorem appendAll_from (mem : List Nat) (start L : Nat) (h1 : L ≤ INT_MAX)
    (h2 : start + L ≤ mem.length) : ∀ (txts : List (List Nat)) (S : List Nat),
    S.length + 1 ≤ L →
    appendAll (writeAt mem start (S ++ [0])) (some (start + S.length)) (start + L) txts
      = (writeAt mem start
            (txts.foldl (fun S txt => S ++ appended (L - S.length) txt) S ++ [0]),
         some (start
            + (txts.foldl (fun S txt => S ++ appended (L - S.length) txt) S).length))
      ∧ (txts.foldl (fun S txt => S ++ appended (L - S.length) txt) S).length + 1 ≤ L := by
  intro txts
  induction txts with
  | nil => intro S hS; exact ⟨rfl, hS⟩
  | cons t ts ih =>
    intro S hS
    have hm : (writeAt mem start (S ++ [0])).length = mem.length :=
      length_writeAt _ _ _ (by simp; omega)
    have hroom : start + L - (start + S.length) = L - S.length := by omega
    have hX := appended_length (L - S.length) t (by omega)
    have step := vbufPrintf_eq (writeAt mem start (S ++ [0])) (start + S.length) (start + L) t
      (by omega) (by omega) (by omega)
    rw [hroom] at step
    have hww := writeAt_writeAt mem start S [0] (appended (L - S.length) t ++ [0])
      (by simp; omega) (by simp)
    rw [hww] at step
    have ih2 := ih (S ++ appended (L - S.length) t) (by simp; omega)
    simp only [List.foldl_cons]
    unfold appendAll bufPrintf
    rw [step]
    simp only [List.length_append, List.append_assoc, Nat.add_assoc] at ih2 ⊢
    exact ih2

/-- A run of at least one call that starts at the beginning of a buffer of
`L` cells is one store of `content L txts` and its terminator. -/
theorem appendAll_eq (mem : List Nat) (start L : Nat) (txts : List (List Nat))
    (h0 : 1 ≤ L) (h1 : L ≤ INT_MAX) (h2 : start + L ≤ mem.length) (h3 : txts ≠ []) :
    appendAll mem (some start) (start + L) txts
      = (writeAt mem start (content L txts ++ [0]), some (start + (content L txts).length))
      ∧ (content L txts).length + 1 ≤ L := by
  cases txts with
  | nil => exact absurd rfl h3
  | cons t ts =>
    have hX := appended_length L t h0
    have step := vbufPrintf_eq mem start (start + L) t (by omega) h2 (by omega)
    have hroom : start + L - start = L := by omega
    rw [hroom] at step
    have h := appendAll_from mem start L h1 h2 ts (appended L t) hX
    unfold content
    simp only [List.foldl_cons, List.length_nil, Nat.sub_zero, List.nil_append]
    rw [← h.1]
    refine ⟨?_, h.2⟩
    conv => lhs; unfold appendAll bufPrintf
    rw [step]

theorem content_snoc (L : Nat) (txts : List (List Nat)) (t : List Nat) :
    content L (txts ++ [t])
      = content L txts ++ appended (L - (content L txts).length) t := by
  simp [content, List.foldl_append]

theorem joined_snoc (txts : List (List Nat)) (t : List Nat) :
    joined (txts ++ [t]) = joined txts ++ printed t := by
  simp [joined]

/-- The two shapes of the string in the buffer: the whole text while it
leaves the margin of four cells free, otherwise the text that fits before
the margin followed by dots up to the last cell. -/
theorem content_spec (L : Nat) (h0 : 1 ≤ L) (txts : List (List Nat)) :
    (content L txts = joined txts ∧ ((joined txts).length + 4 ≤ L ∨ txts = []))
    ∨ (txts ≠ [] ∧ (content L txts).length + 1 = L
        ∧ content L txts
            = (joined txts).take (L - 4) ++ List.replicate (min 3 (L - 1)) 46
        ∧ L ≤ (joined txts).length + 4) := by
  induction txts using List.reverseRecOn with
  | nil => left; exact ⟨rfl, Or.inr rfl⟩
  | append_singleton ts t ih =>
    rw [content_snoc, joined_snoc]
    rcases ih with ⟨hc, hj⟩ | ⟨_, hlen, hc, hj⟩
    · rw [hc]
      by_cases h4 : 4 < L - (joined ts).length
      · by_cases h5 : INT_MAX < t.length
        · left
          simp only [appended, printed, if_pos h4, if_pos h5, List.append_nil, true_and]
          left; omega
        · by_cases h6 : t.length ≤ L - (joined ts).length - 4
          · left
            simp only [appended, printed, if_pos h4, if_neg h5, if_pos h6, true_and,
              List.length_append]
            left; omega
          · right
            simp only [appended, printed, if_pos h4, if_neg h5, if_neg h6]
            refine ⟨by simp, ?_, ?_, ?_⟩
            · simp; omega
            · rw [List.take_append_eq_append_take,
                List.take_of_length_le (by omega : (joined ts).length ≤ L - 4)]
              have e1 : L - 4 - (joined ts).length = L - (joined ts).length - 4 := by omega
              have e2 : min 3 (L - 1) = 3 := by omega
              rw [e1, e2]
              simp [List.replicate]
            · simp; omega
      · right
        have hJ : (joined ts).length < L := by
          rcases hj with h | h
          · omega
          · subst h; simp [joined]; omega
        simp only [appended, if_neg h4]
        refine ⟨by simp, ?_, ?_, ?_⟩
        · simp; omega
        · rw [List.take_append_eq_append_take]
          rcases hj with h | h
          · have e1 : L - 4 - (joined ts).length = 0 := by omega
            have e2 : L - (joined ts).length - 1 = min 3 (L - 1) := by omega
            rw [List.take_of_length_le (by omega : (joined ts).length ≤ L - 4), e1, e2]
            simp
          · subst h
            have e1 : L - 4 = 0 := by simp [joined] at h4; omega
            have e2 : L - (joined ([] : List (List Nat))).length - 1 = min 3 (L - 1) := by
              simp [joined] at h4 ⊢; omega
            rw [e1, e2]
            simp [joined]
        · simp; omega
    · right
      have e1 : L - (content L ts).length = 1 := by omega
      have e3 : appended 1 t = [] := by simp [appended]
      simp only [e1, e3, List.append_nil]
      refine ⟨by simp, hlen, ?_, by simp; omega⟩
      rw [hc, List.take_append_eq_append_take]
      have e2 : L - 4 - (joined ts).length = 0 := by omega
      rw [e2]
      simp

/-- A text of non-empty expansions that leaves the margin free is in the
buffer unchanged. -/
theorem content_fits (L : Nat) (txts : List (List Nat))
    (hne : ∀ t ∈ txts, t ≠ [] ∧ t.length ≤ INT_MAX)
    (hfit : (joined txts).length + 4 ≤ L) : content L txts = joined txts := by
  induction txts using List.reverseRecOn with
  | nil => rfl
  | append_singleton ts t ih =>
    have ht := hne t (by simp)
    have hp : printed t = t := by simp [printed]; omega
    rw [joined_snoc, hp] at hfit ⊢
    simp only [List.length_append] at hfit
    have hpos : 0 < t.length := List.length_pos.mpr ht.1
    rw [content_snoc, ih (fun x hx => hne x (by simp [hx])) (by omega)]
    have h4 : 4 < L - (joined ts).length := by omega
    have h5 : ¬ INT_MAX < t.length := by omega
    have h6 : t.length ≤ L - (joined ts).length - 4 := by omega
    simp only [appended, if_pos h4, if_neg h5, if_pos h6]

/-- A text that does not leave the margin free is cut and ends in dots. -/
theorem content_cut (L : Nat) (h0 : 1 ≤ L) (txts : List (List Nat)) (hne : txts ≠ [])
    (hbig : L < (joined txts).length + 4) :
    content L txts = (joined txts).take (L - 4) ++ List.replicate (min 3 (L - 1)) 46
      ∧ (content L txts).length + 1 = L := by
  rcases content_spec L h0 txts with ⟨_, h | h⟩ | ⟨_, hlen, hc, _⟩
  · omega
  · exact absurd h hne
  · exact ⟨hc, hlen⟩


theorem handleDatagram_ok_iff (L : Layout) (le : Bool) (buf : List Nat) (nBytes seq : Nat)
    (recvAddr stack : List Nat) :
    (∃ logString, handleDatagram L le buf nBytes seq recvAddr stack = .ok logString)
      ↔ checkResponse L le buf nBytes seq recvAddr = none := by
  unfold handleDatagram
  cases h : checkResponse L le buf nBytes seq recvAddr <;> simp

theorem htons_bytes (le : Bool) (hi lo : Nat) (h1 : hi < 256) (h2 : lo < 256) :
    htons le (hi * 256 + lo) = if le then lo * 256 + hi else hi * 256 + lo := by
  have e1 : (hi * 256 + lo) % 256 = lo := by omega
  have e2 : (hi * 256 + lo) / 256 = hi := by omega
  have e3 : hi % 256 = hi := by omega
  have e4 : (hi * 256 + lo) % 65536 = hi * 256 + lo := by omega
  cases le <;> simp [htons, bswap16, e1, e2, e3, e4]

theorem storeU16_htons (le : Bool) (hi lo : Nat) (h1 : hi < 256) (h2 : lo < 256) :
    storeU16 le (htons le (hi * 256 + lo)) = [hi, lo] := by
  rw [htons_bytes le hi lo h1 h2]
  have f1 : (lo * 256 + hi) % 256 = hi := by omega
  have f2 : (lo * 256 + hi) / 256 = lo := by omega
  have f3 : lo % 256 = lo := by omega
  have e1 : (hi * 256 + lo) % 256 = lo := by omega
  have e2 : (hi * 256 + lo) / 256 = hi := by omega
  have e3 : hi % 256 = hi := by omega
  cases le <;> simp [storeU16, e1, e2, e3, f1, f2, f3]

/-- The sequence of a request as its two bytes, the high one first. -/
theorem requestSequence_bytes (le : Bool) (r : Nat) :
    requestSequence le r = htons le (r % 65536 / 256 * 256 + r % 65536 % 256)
    ∧ r % 65536 / 256 < 256 ∧ r % 65536 % 256 < 256 := by
  have hm : r &&& 0xFFFF = r % 65536 := Nat.and_pow_two_sub_one_eq_mod r 16
  have e : r % 65536 / 256 * 256 + r % 65536 % 256 = r % 65536 := by omega
  refine ⟨?_, by omega, by omega⟩
  rw [e, requestSequence, hm]

theorem sendPacketHdr_eq (L : Layout) (le : Bool) (r : Nat) :
    sendPacketHdr L le r = [L.cmdScanRequest % 256, 0, r % 65536 / 256, r % 65536 % 256] := by
  obtain ⟨h1, h2, h3⟩ := requestSequence_bytes le r
  rw [sendPacketHdr, h1, storeU16_htons le _ _ h2 h3]
  rfl

theorem loadU16_eq_iff (le : Bool) (buf : List Nat) (a hi lo : Nat) (h1 : hi < 256)
    (h2 : lo < 256) (h3 : peek buf a < 256) (h4 : peek buf (a + 1) < 256) :
    loadU16 le buf a = htons le (hi * 256 + lo) ↔ [peek buf a, peek buf (a + 1)] = [hi, lo] := by
  rw [htons_bytes le hi lo h1 h2]
  cases le <;> simp [loadU16] <;> omega


theorem records_append (a b : List Event) : records (a ++ b) = records a ++ records b := by
  induction a with
  | nil => rfl
  | cons e rest ih => cases e <;> simp [records, ih]

theorem selects_append (a b : List Event) : selects (a ++ b) = selects a ++ selects b := by
  induction a with
  | nil => rfl
  | cons e rest ih => cases e <;> simp [selects, ih]

theorem collect_inLoop (L : Layout) (le : Bool) (wb : Bool) (fd : Int) (seq : Nat) :
    ∀ (its : List Iter) (tv : Timeval) (buf : List Nat),
      ∀ e ∈ (collect L le wb fd seq its tv buf).1, e.inLoop = true := by
  intro its
  induction its with
  | nil => intro tv buf e he; simp [collect] at he; subst he; rfl
  | cons it rest ih =>
    intro tv buf e he
    unfold collect at he
    simp only at he
    split_ifs at he
    · simp at he; rcases he with h | h <;> subst h <;> rfl
    · simp at he; subst he; rfl
    · split at he
      · simp at he; rcases he with h | h | h <;> subst h <;> rfl
      · split at he
        · simp at he; rcases he with h | h | h <;> subst h <;> rfl
        · split at he
          · simp at he; rcases he with h | h | h <;> subst h <;> rfl
          · simp only [List.mem_cons] at he
            rcases he with h | h | h | h
            · subst h; rfl
            · subst h; rfl
            · subst h; rfl
            · exact ih _ _ e h

theorem collect_no_close (L : Layout) (le : Bool) (wb : Bool) (fd : Int) (seq : Nat)
    (its : List Iter) (tv : Timeval) (buf : List Nat) :
    ∀ e ∈ (collect L le wb fd seq its tv buf).1, e.isClose = false := by
  intro e he
  have := collect_inLoop L le wb fd seq its tv buf e he
  cases e <;> simp_all [Event.inLoop, Event.isClose]

/-- Every `sendto` of a session sends the request header of its random
number to the discovery port. -/
theorem scan_sendto (L : Layout) (le : Bool) (env : Env) (ifName : Option (List Nat))
    (ifIP4Addr : Nat) (buf : List Nat) (fd : Int) (pkt : List Nat) (port : Nat)
    (h : Event.sendto fd pkt port ∈ (idnHelloScan L le env ifName ifIP4Addr buf).1) :
    pkt = sendPacketHdr L le env.rand ∧ port = L.udpPort := by
  simp only [idnHelloScan, List.mem_append] at h
  rcases h with h | h
  · unfold scanBody at h
    cases hn : env.ntopIf with
    | fail e => rw [hn] at h; simp at h
    | ok a =>
      rw [hn] at h
      simp only at h
      split_ifs at h
      · simp at h
      · simp at h
      · simp at h
      · simp at h; exact ⟨h.2.1, h.2.2⟩
      · simp only [List.mem_append, List.mem_cons] at h
        rcases h with (h | h | h | h | h | h) | h
        · cases h
        · cases h
        · cases h
        · cases h
        · simp only [Event.sendto.injEq] at h; exact ⟨h.2.1, h.2.2⟩
        · simp at h
        · have := collect_inLoop L le _ _ _ _ _ _ _ h
          simp [Event.inLoop] at this
  · unfold closeSocket at h
    split_ifs at h <;> simp at h


theorem select_ready (wb : Bool) (tv : Timeval) (after : Nat) (err : Option Int)
    (h : after < tv.usecs) :
    ((select wb tv (some (after, err))).tv.usecs = if wb then tv.usecs - after else tv.usecs)
    ∧ (select wb tv (some (after, err))).waited = after
    ∧ ((select wb tv (some (after, err))).numReady = if err.isSome then -1 else 1)
    ∧ (wb = false → (select wb tv (some (after, err))).tv = tv) := by
  cases wb
  · simp [select, h]
  · simp only [select, h, if_true, and_self, and_true, true_and]
    refine ⟨?_, by intro h2; cases h2⟩
    simp only [Timeval.usecs]
    omega

theorem select_timeout (wb : Bool) (tv : Timeval) (after : Nat) (err : Option Int)
    (h : tv.usecs ≤ after) :
    select wb tv (some (after, err))
      = { numReady := 0, tv := if wb then ⟨0, 0⟩ else tv, waited := tv.usecs } := by
  have : ¬ after < tv.usecs := by omega
  simp [select, this]

/-- What the waits of the loop have in common on every platform, and what
each kind of `select` adds: the first wait gets `tv`; no wait gets more
than `tv` or lasts longer than its budget; the budgets do not grow; with
the write-back they are threaded, without it they are all `tv`. -/
theorem collect_budgets (L : Layout) (le : Bool) (wb : Bool) (fd : Int) (seq : Nat) :
    ∀ (its : List Iter) (tv : Timeval) (buf : List Nat),
      ∃ w rest, selects (collect L le wb fd seq its tv buf).1 = (tv, w) :: rest
        ∧ w ≤ tv.usecs
        ∧ (∀ x ∈ rest, x.1.usecs ≤ tv.usecs ∧ x.2 ≤ x.1.usecs)
        ∧ List.Pairwise (fun x y => y.1.usecs ≤ x.1.usecs) rest
        ∧ (wb = true → budgetsThreaded (tv.usecs - w) rest)
        ∧ (wb = false → ∀ x ∈ rest, x.1 = tv) := by
  intro its
  induction its with
  | nil =>
    intro tv buf
    exact ⟨tv.usecs, [], by simp [collect, selects, select], le_refl _, by simp, by simp,
      fun _ => trivial, by simp⟩
  | cons it rest ih =>
    intro tv buf
    have stop : ∀ (evs : List Event) (b : List Nat) (w : Nat), w ≤ tv.usecs →
        selects evs = [] →
        ∃ w2 rest2, selects ((Event.select fd tv w :: evs, b) : List Event × List Nat).1
            = (tv, w2) :: rest2
          ∧ w2 ≤ tv.usecs
          ∧ (∀ x ∈ rest2, x.1.usecs ≤ tv.usecs ∧ x.2 ≤ x.1.usecs)
          ∧ List.Pairwise (fun x y => y.1.usecs ≤ x.1.usecs) rest2
          ∧ (wb = true → budgetsThreaded (tv.usecs - w2) rest2)
          ∧ (wb = false → ∀ x ∈ rest2, x.1 = tv) := by
      intro evs b w hw he
      exact ⟨w, [], by simp [selects, he], hw, by simp, by simp, fun _ => trivial, by simp⟩
    by_cases hlt : it.after < tv.usecs
    · obtain ⟨e1, e2, e3, e4⟩ := select_ready wb tv it.after it.selectError hlt
      unfold collect
      simp only [e2, e3]
      cases herr : it.selectError with
      | some e => exact stop _ _ _ (by omega) (by simp [selects])
      | none =>
        simp only [Option.isSome_none, Bool.false_eq_true, if_false]
        have n1 : ¬ ((1 : Int) < 0) := by decide
        have n2 : ¬ ((1 : Int) = 0) := by decide
        simp only [n1, n2, if_false]
        split
        · exact stop _ _ _ (by omega) (by simp [selects])
        · next _ bytes _ =>
          split
          · exact stop _ _ _ (by omega) (by simp [selects])
          · split
            · exact stop _ _ _ (by omega) (by simp [selects])
            · obtain ⟨w, rest2, h1, h2, h3, h4, h5, h6⟩ :=
                ih (select wb tv (some (it.after, none))).tv (recvInto buf bytes)
              rw [herr] at e1 e4
              have hle : (select wb tv (some (it.after, none))).tv.usecs ≤ tv.usecs := by
                rw [e1]; split_ifs <;> omega
              refine ⟨it.after, _, by simp only [selects]; rfl, by omega, ?_, ?_, ?_, ?_⟩
              · rw [h1]
                intro x hx
                rcases List.mem_cons.mp hx with hx | hx
                · subst hx; exact ⟨hle, h2⟩
                · have := h3 x hx; exact ⟨by omega, this.2⟩
              · rw [h1]
                exact List.Pairwise.cons (fun y hy => (h3 y hy).1) h4
              · intro hw
                rw [h1]
                subst hw
                simp only [if_true] at e1
                have t5 := h5 rfl
                rw [e1] at h2 t5
                unfold budgetsThreaded
                exact ⟨e1, h2, t5⟩
              · intro hw
                rw [h1]
                intro x hx
                rcases List.mem_cons.mp hx with hx | hx
                · subst hx; exact e4 hw
                · rw [h6 hw x hx]; exact e4 hw
    · rw [show collect L le wb fd seq (it :: rest) tv buf = ([.select fd tv tv.usecs], buf) by
        unfold collect
        simp [select_timeout wb tv it.after it.selectError (by omega)]]
      exact stop [] buf _ (le_refl _) rfl

theorem threaded_bounds : ∀ (ws : List (Timeval × Nat)) (b : Nat), budgetsThreaded b ws →
    (ws.map (fun x => x.2)).sum ≤ b ∧ (∀ x ∈ ws, x.1.usecs ≤ b)
      ∧ List.Pairwise (fun x y => y.1.usecs ≤ x.1.usecs) ws := by
  intro ws
  induction ws with
  | nil => intro b _; simp
  | cons x rest ih =>
    intro b h
    obtain ⟨tv, w⟩ := x
    obtain ⟨h1, h2, h3⟩ := h
    obtain ⟨i1, i2, i3⟩ := ih (b - w) h3
    refine ⟨?_, ?_, ?_⟩
    · simp only [List.map_cons, List.sum_cons]; omega
    · intro y hy
      rcases List.mem_cons.mp hy with h | h
      · subst h; simp [h1]
      · have := i2 y h; omega
    · refine List.Pairwise.cons ?_ i3
      intro y hy
      have := i2 y hy
      simp only [h1]; omega

theorem scan_selects (L : Layout) (le : Bool) (env : Env) (ifName : Option (List Nat))
    (ifIP4Addr : Nat) (buf : List Nat) :
    selects (idnHelloScan L le env ifName ifIP4Addr buf).1 = []
    ∨ ∃ fd seq, selects (idnHelloScan L le env ifName ifIP4Addr buf).1
        = selects (collect L le env.selectWritesBack fd seq env.iters ⟨0, 500000⟩ buf).1 := by
  have hclose : ∀ fd, selects (closeSocket env fd) = [] := by
    intro fd
    unfold closeSocket
    split_ifs <;> rfl
  simp only [idnHelloScan, selects_append, hclose, List.append_nil]
  unfold scanBody
  cases env.ntopIf with
  | fail e => left; rfl
  | ok a =>
    simp only
    split_ifs
    · left; rfl
    · left; rfl
    · left; rfl
    · left; rfl
    · right
      exact ⟨env.sockOpen.rc, requestSequence le env.rand, by simp [selects_append, selects]⟩


theorem peek_recvInto (buf bytes : List Nat) (i : Nat) (h : i < min bytes.length 65536) :
    peek (recvInto buf bytes) i = peek bytes i := by
  have h1 : i < (bytes.take 65536).length := by simp; omega
  have h2 : i < bytes.length := by omega
  simp only [peek, recvInto, writeAt, List.take_zero, List.nil_append, List.getD_eq_getElem?_getD]
  rw [List.getElem?_append_left h1, List.getElem?_take_of_lt (by omega)]

theorem checkResponse_recvInto (L : Layout) (le : Bool) (buf bytes : List Nat) (seq : Nat)
    (recvAddr : List Nat) (hwf : 1 ≤ L.bodySize) :
    (checkResponse L le (recvInto buf bytes) (min bytes.length 65536) seq recvAddr).isNone
      = (checkResponse L le bytes (min bytes.length 65536) seq []).isNone := by
  unfold checkResponse
  by_cases hn : min bytes.length 65536 = hdrSize + L.bodySize
  · have hh : hdrSize = 4 := rfl
    have p0 := peek_recvInto buf bytes 0 (by omega)
    have p2 := peek_recvInto buf bytes 2 (by omega)
    have p3 := peek_recvInto buf bytes (2 + 1) (by omega)
    have p4 := peek_recvInto buf bytes hdrSize (by omega)
    simp only [loadU16, p0, p2, p3, p4]
    split_ifs <;> rfl
  · simp [hn]

theorem collect_records (L : Layout) (le : Bool) (wb : Bool) (fd : Int) (seq : Nat)
    (hwf : 1 ≤ L.bodySize) :
    ∀ (its : List Iter) (tv : Timeval) (buf : List Nat),
      (∀ it ∈ its, it.delivers = true) → (its.map (fun it => it.after)).sum < tv.usecs →
      records (collect L le wb fd seq its tv buf).1
          = validRecords L le seq (its.takeWhile (Iter.accepted L le seq)) buf
        ∧ (validRecords L le seq (its.takeWhile (Iter.accepted L le seq)) buf).length
          = (its.takeWhile (Iter.accepted L le seq)).length := by
  intro its
  induction its with
  | nil => intro tv buf _ _; simp [collect, records, validRecords]
  | cons it rest ih =>
    intro tv buf hdel htime
    simp only [List.map_cons, List.sum_cons] at htime
    have hlt : it.after < tv.usecs := by omega
    obtain ⟨e1, e2, e3, _⟩ := select_ready wb tv it.after it.selectError hlt
    have hd := hdel it (by simp)
    simp only [Iter.delivers, Bool.and_eq_true] at hd
    obtain ⟨⟨d1, d2⟩, d3⟩ := hd
    have herr : it.selectError = none := by
      cases h : it.selectError with
      | none => rfl
      | some e => rw [h] at d1; simp at d1
    rw [herr] at e1 e2 e3
    simp only [Option.isSome_none, Bool.false_eq_true, if_false] at e3
    cases hrecv : it.recv with
    | fail e => rw [hrecv] at d2; simp at d2
    | datagram bytes =>
      cases hntop : it.ntop with
      | fail e => rw [hntop] at d3; simp at d3
      | ok recvAddr =>
        have hacc : Iter.accepted L le seq it
            = (checkResponse L le (recvInto buf bytes) (min bytes.length 65536) seq
                recvAddr).isNone := by
          simp only [Iter.accepted, hrecv]
          exact (checkResponse_recvInto L le buf bytes seq recvAddr hwf).symm
        have n1 : ¬ ((1 : Int) < 0) := by decide
        have n2 : ¬ ((1 : Int) = 0) := by decide
        unfold collect
        simp only [herr, e2, e3, if_false, n1, n2, hrecv, hntop]
        cases hchk : checkResponse L le (recvInto buf bytes) (min bytes.length 65536) seq
            recvAddr with
        | some d =>
          have ha : Iter.accepted L le seq it = false := by rw [hacc, hchk]; rfl
          simp [handleDatagram, hchk, records, List.takeWhile_cons, ha, validRecords]
        | none =>
          have ha : Iter.accepted L le seq it = true := by rw [hacc, hchk]; rfl
          obtain ⟨i1, i2⟩ := ih (select wb tv (some (it.after, none))).tv (recvInto buf bytes)
            (fun x hx => hdel x (by simp [hx])) (by rw [e1]; split_ifs <;> omega)
          simp only [handleDatagram, hchk, records, List.takeWhile_cons, ha, if_true,
            validRecords, hrecv, hntop, i1, List.length_cons, i2, and_self]


theorem appendAll_append (limit : Nat) : ∀ (a b : List (List Nat)) (mem : List Nat)
    (p : Option Nat), appendAll mem p limit (a ++ b)
      = appendAll (appendAll mem p limit a).1 (appendAll mem p limit a).2 limit b := by
  intro a
  induction a with
  | nil => intro b mem p; rfl
  | cons t ts ih =>
    intro b mem p
    show appendAll (bufPrintf mem p limit t).1 (bufPrintf mem p limit t).2 limit (ts ++ b) = _
    rw [ih]
    rfl

theorem readBytes_succ (buf : List Nat) (src k : Nat) :
    readBytes buf src (k + 1) = peek buf src :: readBytes buf (src + 1) k := by
  simp only [readBytes, List.range_succ_eq_map, List.map_cons, List.map_map, Nat.add_zero]
  congr 1
  apply List.map_congr_left
  intro j _
  simp only [Function.comp, Nat.succ_eq_add_one]
  congr 1
  omega

theorem unitIDLoop_eq (buf : List Nat) : ∀ (fuel src i n : Nat) (st : List Nat × Option Nat),
    n - i ≤ fuel →
    unitIDLoop buf fuel src i n st
      = appendAll st.1 st.2 200
          (if i = 0 then unitIDTexts (readBytes buf src (n - i))
           else (readBytes buf src (n - i)).map fmt02X) := by
  intro fuel
  induction fuel with
  | zero =>
    intro src i n st h
    have h0 : n - i = 0 := by omega
    simp [unitIDLoop, h0, readBytes, unitIDTexts, appendAll]
  | succ f ih =>
    intro src i n st h
    unfold unitIDLoop
    by_cases hi : i < n
    · have hk : n - i = (n - (i + 1)) + 1 := by omega
      rw [if_pos hi, ih _ _ _ _ (by omega), if_neg (by omega : ¬ i + 1 = 0), hk,
        readBytes_succ]
      by_cases h0 : i = 0
      · simp only [h0, if_true, unitIDTexts, appendAll]
      · simp only [h0, if_false, List.map_cons, appendAll]
    · have h0 : n - i = 0 := by omega
      simp [hi, h0, readBytes, unitIDTexts, appendAll]

theorem cstr_ne_nil (buf : List Nat) (a : Nat) : cstr (buf.drop a) ≠ [] ↔ peek buf a ≠ 0 := by
  have hp : peek buf a = (buf.drop a).headD 0 := by
    simp only [peek, List.getD_eq_getElem?_getD]
    cases h : buf.drop a with
    | nil =>
      have : buf.length ≤ a := by simpa using h
      simp [List.getElem?_eq_none this]
    | cons c cs =>
      have h2 := congrArg (fun l => l[0]?) h
      simp only [List.getElem?_drop, Nat.add_zero, List.getElem?_cons_zero] at h2
      simp [h2]
  rw [hp]
  cases buf.drop a with
  | nil => simp [cstr]
  | cons c cs =>
    by_cases hc : c = 0 <;> simp [cstr, List.takeWhile_cons, hc]

theorem cstr_append (s rest : List Nat) (h : ∀ c ∈ s, c ≠ 0) : cstr (s ++ 0 :: rest) = s := by
  induction s with
  | nil => simp [cstr]
  | cons c cs ih =>
    have hc : c ≠ 0 := h c (by simp)
    have := ih (fun x hx => h x (by simp [hx]))
    simp only [cstr, List.cons_append, List.takeWhile_cons] at this ⊢
    simp [hc, this]

theorem cstr_nonzero (cells : List Nat) : ∀ c ∈ cstr cells, c ≠ 0 := by
  intro c hc
  have := List.mem_takeWhile_imp hc
  simpa using this

/-- Lines 281-297 are the run of appends for the identifier and the host
name that the code reads. -/
theorem formatRecord_eq (L : Layout) (buf logString : List Nat) :
    formatRecord L buf logString
      = (appendAll logString (some 0) 200
          (unitIDTexts (unitID L buf) ++ hostNameTexts (hostName L buf))).1 := by
  have hloop := unitIDLoop_eq buf (peek buf (hdrSize + L.unitIDOff))
    (hdrSize + L.unitIDOff + 1) 0 (peek buf (hdrSize + L.unitIDOff)) (logString, some 0)
    (by omega)
  simp only [if_true, Nat.sub_zero] at hloop
  unfold formatRecord
  simp only [hloop]
  rw [appendAll_append]
  by_cases hh : peek buf (hdrSize + L.hostNameOff) ≠ 0
  · have hne : hostName L buf ≠ [] := (cstr_ne_nil buf _).mpr hh
    rw [if_pos hh]
    unfold hostNameTexts
    rw [if_pos hne]
    rfl
  · have hne : ¬ hostName L buf ≠ [] := fun h => hh ((cstr_ne_nil buf _).mp h)
    rw [if_neg hh]
    unfold hostNameTexts
    rw [if_neg hne]
    rfl


theorem joined_eq_flatten (txts : List (List Nat)) (h : ∀ t ∈ txts, t.length ≤ INT_MAX) :
    joined txts = txts.flatten := by
  induction txts with
  | nil => rfl
  | cons t ts ih =>
    have ht : ¬ INT_MAX < t.length := by have := h t (by simp); omega
    have := ih (fun x hx => h x (by simp [hx]))
    simp only [joined, List.map_cons, List.flatten_cons, printed, ht, if_false] at this ⊢
    rw [this]

theorem recordTexts_ok (u h : List Nat) (hh : h.length + 2 ≤ INT_MAX) :
    ∀ t ∈ unitIDTexts u ++ hostNameTexts h, t ≠ [] ∧ t.length ≤ INT_MAX := by
  intro t ht
  have hI : INT_MAX = 2147483647 := rfl
  rcases List.mem_append.mp ht with h1 | h1
  · cases u with
    | nil => simp [unitIDTexts] at h1
    | cons b bs =>
      simp only [unitIDTexts, List.mem_cons, List.mem_map] at h1
      rcases h1 with h1 | h1 | ⟨x, _, h1⟩
      · subst h1; simp [fmt02X, hI]
      · subst h1; simp [hI]
      · subst h1; simp [fmt02X, hI]
  · unfold hostNameTexts at h1
    split_ifs at h1
    · simp only [List.mem_singleton] at h1
      subst h1
      refine ⟨by simp, ?_⟩
      simp only [List.length_append, List.length_singleton, List.length_cons, List.length_nil]
      omega
    · simp at h1

theorem recordTexts_flatten (u h : List Nat) :
    (unitIDTexts u ++ hostNameTexts h).flatten = recordText u h := by
  unfold recordText hostNameTexts
  cases u with
  | nil => split_ifs <;> simp [unitIDTexts]
  | cons b bs => split_ifs <;> simp [unitIDTexts]

theorem recordTexts_ne_nil (u h : List Nat) (hne : u ≠ [] ∨ h ≠ []) :
    unitIDTexts u ++ hostNameTexts h ≠ [] := by
  rcases hne with h1 | h1
  · cases u with
    | nil => exact absurd rfl h1
    | cons b bs => simp [unitIDTexts]
  · simp [hostNameTexts, h1]

theorem hexDigit_ne_zero (d : Nat) : hexDigit d ≠ 0 := by
  unfold hexDigit
  split_ifs <;> omega

theorem recordText_nonzero (u h : List Nat) (hh : ∀ c ∈ h, c ≠ 0) :
    ∀ c ∈ recordText u h, c ≠ 0 := by
  intro c hc
  rw [← recordTexts_flatten] at hc
  obtain ⟨t, ht, hct⟩ := List.mem_flatten.mp hc
  rcases List.mem_append.mp ht with h1 | h1
  · cases u with
    | nil => simp [unitIDTexts] at h1
    | cons b bs =>
      simp only [unitIDTexts, List.mem_cons, List.mem_map] at h1
      rcases h1 with h1 | h1 | ⟨x, _, h1⟩
      · subst h1
        simp only [fmt02X, List.mem_cons, List.mem_singleton, List.not_mem_nil, or_false] at hct
        rcases hct with h2 | h2 <;> subst h2 <;> exact hexDigit_ne_zero _
      · subst h1
        simp only [List.mem_singleton] at hct
        omega
      · subst h1
        simp only [fmt02X, List.mem_cons, List.mem_singleton, List.not_mem_nil, or_false] at hct
        rcases hct with h2 | h2 <;> subst h2 <;> exact hexDigit_ne_zero _
  · unfold hostNameTexts at h1
    split_ifs at h1
    · simp only [List.mem_singleton] at h1
      subst h1
      simp only [List.mem_append, List.mem_singleton] at hct
      rcases hct with (h2 | h2) | h2
      · omega
      · exact hh c h2
      · omega
    · simp at h1

theorem clip_nonzero (text : List Nat) (h : ∀ c ∈ text, c ≠ 0) : ∀ c ∈ clip text, c ≠ 0 := by
  intro c hc
  unfold clip at hc
  split_ifs at hc
  · exact h c hc
  · rcases List.mem_append.mp hc with h1 | h1
    · exact h c (List.mem_of_mem_take h1)
    · simp only [List.mem_cons, List.mem_singleton, List.not_mem_nil, or_false] at h1
      omega

/-- The string in `logString` after the calls for non-empty expansions. -/
theorem content_200 (txts : List (List Nat)) (hne : txts ≠ [])
    (hok : ∀ t ∈ txts, t ≠ [] ∧ t.length ≤ INT_MAX) :
    content 200 txts = clip txts.flatten := by
  have hj := joined_eq_flatten txts (fun t ht => (hok t ht).2)
  unfold clip
  by_cases hfit : txts.flatten.length ≤ 196
  · rw [if_pos hfit, content_fits 200 txts hok (by rw [hj]; omega), hj]
  · rw [if_neg hfit, (content_cut 200 (by omega) txts hne (by rw [hj]; omega)).1, hj]
    rfl

theorem length_allocLog (stack : List Nat) : (allocLog stack).length = 200 := by
  unfold allocLog
  rw [List.length_take, List.length_append, List.length_replicate]
  omega

/-- The text that line 300 prints for a datagram whose identifier or host
name is not empty. -/
theorem formatRecord_cstr (L : Layout) (buf stack : List Nat) (hbuf : buf.length ≤ 65536)
    (hne : unitID L buf ≠ [] ∨ hostName L buf ≠ []) :
    cstr (formatRecord L buf (allocLog stack))
      = clip (recordText (unitID L buf) (hostName L buf)) := by
  have hlen : (hostName L buf).length + 2 ≤ INT_MAX := by
    have h1 : (hostName L buf).length ≤ (buf.drop (hdrSize + L.hostNameOff)).length :=
      (List.takeWhile_sublist _).length_le
    have h2 : (buf.drop (hdrSize + L.hostNameOff)).length ≤ buf.length := by
      simp
    have hI : INT_MAX = 2147483647 := rfl
    omega
  have hok := recordTexts_ok (unitID L buf) (hostName L buf) hlen
  have hnn := recordTexts_ne_nil (unitID L buf) (hostName L buf) hne
  have hc := content_200 _ hnn hok
  rw [recordTexts_flatten] at hc
  obtain ⟨e, _⟩ := appendAll_eq (allocLog stack) 0 200 _ (by omega) (by decide)
    (by rw [length_allocLog]) hnn
  rw [formatRecord_eq L buf (allocLog stack)]
  have e2 : (0 : Nat) + 200 = 200 := rfl
  rw [e2] at e
  rw [e, hc]
  simp only [writeAt, List.take_zero, List.nil_append, List.append_assoc, List.singleton_append]
  exact cstr_append _ _ (clip_nonzero _ (recordText_nonzero _ _ (cstr_nonzero _)))

/-- The result of lines 254-300 for an accepted datagram whose identifier
or host name is not empty. -/
theorem handleDatagram_accepted (L : Layout) (le : Bool) (buf : List Nat) (nBytes seq : Nat)
    (recvAddr stack : List Nat)
    (hacc : checkResponse L le buf nBytes seq recvAddr = none) (hbuf : buf.length ≤ 65536)
    (hne : unitID L buf ≠ [] ∨ hostName L buf ≠ []) :
    handleDatagram L le buf nBytes seq recvAddr stack
      = .ok (clip (recordText (unitID L buf) (hostName L buf))) := by
  simp only [handleDatagram, hacc]
  rw [formatRecord_cstr L buf stack hbuf hne]


theorem content_stuck (L : Nat) : ∀ (more : List (List Nat)) (S : List Nat),
    S.length + 1 = L →
    more.foldl (fun S txt => S ++ appended (L - S.length) txt) S = S := by
  intro more
  induction more with
  | nil => intro S _; rfl
  | cons t ts ih =>
    intro S hS
    have e1 : L - S.length = 1 := by omega
    have e3 : appended 1 t = [] := by simp [appended]
    simp only [List.foldl_cons, e1, e3, List.append_nil]
    exact ih S hS

theorem slice_writeAt (mem : List Nat) (start : Nat) (S : List Nat) (v : Nat)
    (h : start ≤ mem.length) :
    ((writeAt mem start (S ++ [v])).drop start).take S.length = S := by
  have h1 : (mem.take start).length = start := by simp; omega
  unfold writeAt
  rw [List.append_assoc, List.drop_append_eq_append_drop, h1]
  simp only [Nat.sub_self, List.drop_zero]
  rw [List.drop_of_length_le (by omega), List.nil_append, List.append_assoc,
    List.take_append_of_le_length (by omega), List.take_of_length_le (by omega)]


theorem peek_of_take (m pre xs : List Nat) (n : Nat) (h : m.take n = pre ++ xs) (j : Nat)
    (hj : j < xs.length) : peek m (pre.length + j) = peek xs j := by
  have hlen : pre.length + xs.length ≤ n := by
    have := congrArg List.length h
    simp only [List.length_take, List.length_append] at this
    omega
  have h1 : m[pre.length + j]? = (m.take n)[pre.length + j]? :=
    (List.getElem?_take_of_lt (by omega)).symm
  simp only [peek, List.getD_eq_getElem?_getD]
  rw [h1, h, List.getElem?_append_right (by omega)]
  simp

theorem readBytes_of_take (m pre xs : List Nat) (n : Nat) (h : m.take n = pre ++ xs) :
    readBytes m pre.length xs.length = xs := by
  apply List.ext_getElem
  · simp [readBytes]
  · intro j h1 h2
    simp only [readBytes, List.getElem_map, List.getElem_range]
    rw [peek_of_take m pre xs n h j h2]
    simp [peek, List.getD_eq_getElem?_getD, List.getElem?_eq_getElem h2]

theorem length_encodeResponse (L : Layout) (pad : List Nat) (flags s : Nat) (u h : List Nat)
    (hwf : L.wf) (hu : u.length + 1 ≤ L.unitIDSize) (hh : h.length + 1 ≤ L.hostNameSize) :
    (encodeResponse L pad flags s u h).length = hdrSize + L.bodySize := by
  obtain ⟨_, _, _, w4, w5, w6, w7⟩ := hwf
  have hH : hdrSize = 4 := rfl
  have l0 : ((pad ++ List.replicate (hdrSize + L.bodySize) 0).take
      (hdrSize + L.bodySize)).length = hdrSize + L.bodySize := by
    rw [List.length_take, List.length_append, List.length_replicate]; omega
  unfold encodeResponse
  simp only
  rw [length_writeAt, length_writeAt, length_writeAt, l0]
  · rw [l0]; simp; omega
  · rw [length_writeAt, l0]
    · simp; omega
    · rw [l0]; simp; omega
  · rw [length_writeAt, length_writeAt, l0]
    · simp; omega
    · rw [l0]; simp; omega
    · rw [length_writeAt, l0]
      · simp; omega
      · rw [l0]; simp; omega

theorem encodeResponse_facts (L : Layout) (pad : List Nat) (flags s : Nat) (u h : List Nat)
    (hwf : L.wf) (hu : u.length + 1 ≤ L.unitIDSize) (hh : h.length + 1 ≤ L.hostNameSize) :
    (encodeResponse L pad flags s u h).take 5
        = [L.cmdScanResponse, flags, s / 256 % 256, s % 256, L.bodySize]
    ∧ (∃ pre, pre.length = hdrSize + L.unitIDOff
        ∧ (encodeResponse L pad flags s u h).take (hdrSize + L.unitIDOff + (u.length + 1))
          = pre ++ (u.length :: u))
    ∧ (∃ pre rest, pre.length = hdrSize + L.hostNameOff
        ∧ encodeResponse L pad flags s u h = pre ++ (h ++ 0 :: rest)) := by
  obtain ⟨_, _, _, w4, w5, w6, w7⟩ := hwf
  have hH : hdrSize = 4 := rfl
  unfold encodeResponse
  simp only
  generalize hp0 : (pad ++ List.replicate (hdrSize + L.bodySize) 0).take
    (hdrSize + L.bodySize) = p0
  have l0 : p0.length = hdrSize + L.bodySize := by
    rw [← hp0, List.length_take, List.length_append, List.length_replicate]; omega
  generalize hp1 : writeAt p0 0 [L.cmdScanResponse, flags, s / 256 % 256, s % 256, L.bodySize]
    = p1
  have l1 : p1.length = hdrSize + L.bodySize := by
    rw [← hp1, length_writeAt _ _ _ (by simp; omega), l0]
  generalize hp2 : writeAt p1 (hdrSize + L.unitIDOff) (u.length :: u) = p2
  have l2 : p2.length = hdrSize + L.bodySize := by
    rw [← hp2, length_writeAt _ _ _ (by simp; omega), l1]
  refine ⟨?_, ?_, ?_⟩
  · rw [take_writeAt _ _ 5 _ (by omega) (by omega), ← hp2,
      take_writeAt _ _ 5 _ (by omega) (by omega), ← hp1]
    have := take_writeAt_end p0 0
      [L.cmdScanResponse, flags, s / 256 % 256, s % 256, L.bodySize] (by omega)
    simpa using this
  · refine ⟨p1.take (hdrSize + L.unitIDOff), by simp; omega, ?_⟩
    rw [take_writeAt _ _ _ _ (by omega) (by omega), ← hp2]
    exact take_writeAt_end p1 _ (u.length :: u) (by omega)
  · refine ⟨p2.take (hdrSize + L.hostNameOff),
      p2.drop (hdrSize + L.hostNameOff + (h ++ [0]).length), by simp; omega, ?_⟩
    simp [writeAt]

/-- A pass of the loop whose datagram fails a check logs the diagnostic of
that check and leaves the loop without a record. -/
theorem collect_rejected (L : Layout) (le : Bool) (wb : Bool) (fd : Int) (seq : Nat)
    (it : Iter)
    (rest : List Iter) (tv : Timeval) (buf bytes recvAddr : List Nat) (d : Diag)
    (h1 : it.after < tv.usecs) (h2 : it.selectError = none) (h3 : it.recv = .datagram bytes)
    (h4 : it.ntop = .ok recvAddr)
    (h5 : handleDatagram L le (recvInto buf bytes) (min bytes.length 65536) seq recvAddr
        it.stack = .error d) :
    collect L le wb fd seq (it :: rest) tv buf
      = ([.select fd tv it.after, .recvfrom fd, .logError d], recvInto buf bytes) := by
  obtain ⟨_, e2, e3, _⟩ := select_ready wb tv it.after it.selectError h1
  rw [h2] at e2 e3
  simp only [Option.isSome_none, Bool.false_eq_true, if_false] at e3
  have n1 : ¬ ((1 : Int) < 0) := by decide
  have n2 : ¬ ((1 : Int) = 0) := by decide
  unfold collect
  simp only [h2, e2, e3, n1, n2, if_false, h3, h4, h5]

/-- A session whose setup succeeds up to the bind sends the request header
of its random number once, as its first packet and its only one. -/
theorem scan_sends (L : Layout) (le : Bool) (env : Env) (ifName : Option (List Nat))
    (ifIP4Addr : Nat) (buf ifAddr : List Nat) (h1 : env.ntopIf = .ok ifAddr)
    (h2 : 0 ≤ env.sockOpen.rc) (h3 : 0 ≤ env.setBroadcast.rc) (h4 : 0 ≤ env.bind.rc) :
    ∃ rest, (idnHelloScan L le env ifName ifIP4Addr buf).1
        = [.logInfoScan (ifName.getD [60, 63, 62]) ifAddr, .sockOpen,
           .setBroadcast env.sockOpen.rc, .bind env.sockOpen.rc ifIP4Addr,
           .sendto env.sockOpen.rc (sendPacketHdr L le env.rand) L.udpPort] ++ rest
      ∧ ∀ e ∈ rest, e.isSendto = false := by
  have n2 : ¬ env.sockOpen.rc < 0 := by omega
  have n3 : ¬ env.setBroadcast.rc < 0 := by omega
  have n4 : ¬ env.bind.rc < 0 := by omega
  have hclose : ∀ e ∈ closeSocket env env.sockOpen.rc, e.isSendto = false := by
    intro e he
    unfold closeSocket at he
    split_ifs at he <;> simp at he
    all_goals first | (rcases he with h | h <;> subst h <;> rfl) | (subst he; rfl)
  by_cases h5 : env.sendto.rc < 0
  · refine ⟨.logError (.sendto env.sendto.errno) :: closeSocket env env.sockOpen.rc, ?_, ?_⟩
    · simp [idnHelloScan, scanBody, h1, n2, n3, n4, h5]
    · intro e he
      rcases List.mem_cons.mp he with h | h
      · subst h; rfl
      · exact hclose e h
  · refine ⟨(collect L le env.selectWritesBack env.sockOpen.rc (requestSequence le env.rand)
        env.iters ⟨0, 500000⟩ buf).1 ++ closeSocket env env.sockOpen.rc, ?_, ?_⟩
    · simp [idnHelloScan, scanBody, h1, n2, n3, n4, h5]
    · intro e he
      rcases List.mem_append.mp he with h | h
      · have := collect_inLoop L le _ _ _ _ _ _ e h
        cases e <;> simp_all [Event.inLoop, Event.isSendto]
      · exact hclose e h

/-- The waits of a session whose setup succeeds are those of the loop,
started with 0 s and 500000 µs. -/
theorem scan_selects_ok (L : Layout) (le : Bool) (env : Env) (ifName : Option (List Nat))
    (ifIP4Addr : Nat) (buf ifAddr : List Nat) (h1 : env.ntopIf = .ok ifAddr)
    (h2 : 0 ≤ env.sockOpen.rc) (h3 : 0 ≤ env.setBroadcast.rc) (h4 : 0 ≤ env.bind.rc)
    (h5 : 0 ≤ env.sendto.rc) :
    selects (idnHelloScan L le env ifName ifIP4Addr buf).1
      = selects (collect L le env.selectWritesBack env.sockOpen.rc
          (requestSequence le env.rand) env.iters ⟨0, 500000⟩ buf).1 := by
  have n2 : ¬ env.sockOpen.rc < 0 := by omega
  have n3 : ¬ env.setBroadcast.rc < 0 := by omega
  have n4 : ¬ env.bind.rc < 0 := by omega
  have n5 : ¬ env.sendto.rc < 0 := by omega
  have hclose : ∀ fd, selects (closeSocket env fd) = [] := by
    intro fd
    unfold closeSocket
    split_ifs <;> rfl
  simp [idnHelloScan, scanBody, h1, n2, n3, n4, n5, selects_append, hclose, selects]

/-- The waits of every session: the first gets 0 s and 500000 µs, none gets
more or lasts longer than its budget, the budgets do not grow; with the
write-back they are threaded, without it they are all 500000 µs. -/
theorem scan_budgets (L : Layout) (le : Bool) (env : Env) (ifName : Option (List Nat))
    (ifIP4Addr : Nat) (buf : List Nat) :
    (∀ tv w rest, selects (idnHelloScan L le env ifName ifIP4Addr buf).1 = (tv, w) :: rest →
        tv = ⟨0, 500000⟩)
    ∧ (∀ x ∈ selects (idnHelloScan L le env ifName ifIP4Addr buf).1,
        x.1.usecs ≤ 500000 ∧ x.2 ≤ x.1.usecs)
    ∧ List.Pairwise (fun x y => y.1.usecs ≤ x.1.usecs)
        (selects (idnHelloScan L le env ifName ifIP4Addr buf).1)
    ∧ (env.selectWritesBack = true →
        budgetsThreaded 500000 (selects (idnHelloScan L le env ifName ifIP4Addr buf).1))
    ∧ (env.selectWritesBack = false →
        ∀ x ∈ selects (idnHelloScan L le env ifName ifIP4Addr buf).1, x.1 = ⟨0, 500000⟩) := by
  rcases scan_selects L le env ifName ifIP4Addr buf with h | ⟨fd, seq, h⟩
  · rw [h]
    exact ⟨(by intro tv w rest h2; cases h2), (by simp), (by simp), (fun _ => trivial),
      (by simp)⟩
  · obtain ⟨w, rest, g1, g2, g3, g4, g5, g6⟩ :=
      collect_budgets L le env.selectWritesBack fd seq env.iters ⟨0, 500000⟩ buf
    have hu : (⟨0, 500000⟩ : Timeval).usecs = 500000 := by simp [Timeval.usecs]
    have g3p := g3
    have g2p := g2
    rw [hu] at g2 g3 g5
    rw [h, g1]
    refine ⟨?_, ?_, ?_, ?_, ?_⟩
    · intro tv w2 rest2 h4
      simp only [List.cons.injEq, Prod.mk.injEq] at h4
      exact h4.1.1.symm
    · intro x hx
      rcases List.mem_cons.mp hx with hx | hx
      · subst hx; exact ⟨le_of_eq hu, g2p⟩
      · exact g3 x hx
    · exact List.Pairwise.cons (fun y hy => (g3p y hy).1) g4
    · intro hw
      unfold budgetsThreaded
      exact ⟨hu, g2, g5 hw⟩
    · intro hw x hx
      rcases List.mem_cons.mp hx with hx | hx
      · subst hx; rfl
      · exact g6 hw x hx

/-! ## The claims -/

/-- C1: a datagram is accepted exactly when its length is that of header
and body, its command is SCAN_RESPONSE, its sequence field is the one of
the request and its structSize is the body size; otherwise the diagnostic
is that of the first check that fails, in the order length, command,
sequence, structSize, and there is no record.  The sequence fields are
equal exactly when the two bytes on the wire are those of the request.  In
the loop a rejected datagram gives the events select, recvfrom and the
diagnostic, and nothing else. -/
theorem C1_validation_order (L : Layout) (le : Bool) (buf : List Nat) (nBytes r : Nat)
    (recvAddr stack : List Nat) :
    ((∃ logString, handleDatagram L le buf nBytes (requestSequence le r) recvAddr stack
          = .ok logString)
      ↔ (nBytes = hdrSize + L.bodySize ∧ peek buf 0 = L.cmdScanResponse
          ∧ loadU16 le buf 2 = requestSequence le r ∧ peek buf hdrSize = L.bodySize))
    ∧ (nBytes ≠ hdrSize + L.bodySize →
        handleDatagram L le buf nBytes (requestSequence le r) recvAddr stack
          = .error (.invalidPacketSize recvAddr nBytes))
    ∧ (nBytes = hdrSize + L.bodySize → peek buf 0 ≠ L.cmdScanResponse →
        handleDatagram L le buf nBytes (requestSequence le r) recvAddr stack
          = .error (.invalidCommand recvAddr (peek buf 0)))
    ∧ (nBytes = hdrSize + L.bodySize → peek buf 0 = L.cmdScanResponse →
        loadU16 le buf 2 ≠ requestSequence le r →
        handleDatagram L le buf nBytes (requestSequence le r) recvAddr stack
          = .error (.invalidSequence recvAddr))
    ∧ (nBytes = hdrSize + L.bodySize → peek buf 0 = L.cmdScanResponse →
        loadU16 le buf 2 = requestSequence le r → peek buf hdrSize ≠ L.bodySize →
        handleDatagram L le buf nBytes (requestSequence le r) recvAddr stack
          = .error (.invalidResponseSize recvAddr (peek buf hdrSize)))
    ∧ (peek buf 2 < 256 → peek buf 3 < 256 →
        (loadU16 le buf 2 = requestSequence le r
          ↔ [peek buf 2, peek buf 3] = (sendPacketHdr L le r).drop 2))
    ∧ (∀ (wb : Bool) (fd : Int) (it : Iter) (rest : List Iter) (tv : Timeval)
        (buf0 bytes : List Nat) (d : Diag),
        it.after < tv.usecs → it.selectError = none → it.recv = .datagram bytes →
        it.ntop = .ok recvAddr →
        handleDatagram L le (recvInto buf0 bytes) (min bytes.length 65536)
          (requestSequence le r) recvAddr it.stack = .error d →
        collect L le wb fd (requestSequence le r) (it :: rest) tv buf0
          = ([.select fd tv it.after, .recvfrom fd, .logError d], recvInto buf0 bytes)) := by
  refine ⟨?_, ?_, ?_, ?_, ?_, ?_, ?_⟩
  · rw [handleDatagram_ok_iff]
    unfold checkResponse
    split_ifs <;> simp_all
  · intro h1
    simp [handleDatagram, checkResponse, h1]
  · intro h1 h2
    simp [handleDatagram, checkResponse, h1, h2]
  · intro h1 h2 h3
    simp [handleDatagram, checkResponse, h1, h2, h3]
  · intro h1 h2 h3 h4
    simp [handleDatagram, checkResponse, h1, h2, h3, h4]
  · intro h2 h3
    obtain ⟨e1, e2, e3⟩ := requestSequence_bytes le r
    rw [sendPacketHdr_eq, e1, loadU16_eq_iff le buf 2 _ _ e2 e3 h2 h3]
    simp
  · intro wb fd it rest tv buf0 bytes d h1 h2 h3 h4 h5
    exact collect_rejected L le wb fd _ it rest tv buf0 bytes recvAddr d h1 h2 h3 h4 h5

/-- C1 at the sample response: 41 bytes are accepted, 40 bytes are rejected
for their length. -/
theorem C1_validation_order_witness :
    (∃ logString, handleDatagram specLayout true sampleResponse 41
        (requestSequence true 0xABCD) [] [] = .ok logString)
    ∧ handleDatagram specLayout true sampleResponse 40 (requestSequence true 0xABCD) [] []
        = .error (.invalidPacketSize [] 40) :=
  ⟨(C1_validation_order specLayout true sampleResponse 41 0xABCD [] []).1.mpr
      (by decide),
   (C1_validation_order specLayout true sampleResponse 40 0xABCD [] []).2.1 (by decide)⟩

/-- C2 as stated fails: both datagrams arrive within the window and the
second one is valid, so its record "AA-BBCC(dev1)" should be emitted, but
the session emits no record, because the first datagram ends the
collection. -/
theorem C2_malformed_ends_collection :
    (malformedFirstEnv.iters.all Iter.delivers = true
      ∧ (malformedFirstEnv.iters.map (fun it => it.after)).sum < 500000)
    ∧ validRecords specLayout true (requestSequence true malformedFirstEnv.rand)
        malformedFirstEnv.iters []
        = [([65, 65, 45, 66, 66, 67, 67, 40, 100, 101, 118, 49, 41], [56])]
    ∧ records (idnHelloScan specLayout true malformedFirstEnv none 5 []).1 = []
    ∧ (idnHelloScan specLayout true malformedFirstEnv none 5 []).1
        = [.logInfoScan [60, 63, 62] [49, 48, 46, 48, 46, 48, 46, 49], .sockOpen,
           .setBroadcast 3, .bind 3 5, .sendto 3 [16, 0, 171, 205] 7255,
           .select 3 ⟨0, 500000⟩ 1000, .recvfrom 3, .logError (.invalidSequence [55]),
           .close 3] := by
  refine ⟨by decide, ?_, ?_, ?_⟩ <;> decide

/-- C2, amended: when the setup succeeds and the datagrams all arrive
within the window, the records of the session are those of the valid
datagrams that arrive before the first datagram that fails decoding, one
for each, in the order of arrival; the first failing datagram ends the
collection. -/
theorem C2_records_until_first_malformed (L : Layout) (le : Bool) (env : Env)
    (ifName : Option (List Nat)) (ifIP4Addr : Nat) (buf ifAddr : List Nat)
    (hwf : 1 ≤ L.bodySize) (h1 : env.ntopIf = .ok ifAddr) (h2 : 0 ≤ env.sockOpen.rc)
    (h3 : 0 ≤ env.setBroadcast.rc) (h4 : 0 ≤ env.bind.rc) (h5 : 0 ≤ env.sendto.rc)
    (hdel : ∀ it ∈ env.iters, it.delivers = true)
    (htime : (env.iters.map (fun it => it.after)).sum < 500000) :
    records (idnHelloScan L le env ifName ifIP4Addr buf).1
      = validRecords L le (requestSequence le env.rand)
          (env.iters.takeWhile (Iter.accepted L le (requestSequence le env.rand))) buf
    ∧ (validRecords L le (requestSequence le env.rand)
          (env.iters.takeWhile (Iter.accepted L le (requestSequence le env.rand))) buf).length
      = (env.iters.takeWhile (Iter.accepted L le (requestSequence le env.rand))).length := by
  have n1 : ¬ env.sockOpen.rc < 0 := by omega
  have n2 : ¬ env.setBroadcast.rc < 0 := by omega
  have n3 : ¬ env.bind.rc < 0 := by omega
  have n4 : ¬ env.sendto.rc < 0 := by omega
  obtain ⟨c1, c2⟩ := collect_records L le env.selectWritesBack env.sockOpen.rc
    (requestSequence le env.rand) hwf
    env.iters ⟨0, 500000⟩ buf hdel (by simpa [Timeval.usecs] using htime)
  refine ⟨?_, c2⟩
  have hclose : records (closeSocket env env.sockOpen.rc) = [] := by
    unfold closeSocket
    split_ifs <;> rfl
  simp only [idnHelloScan, scanBody, h1, n1, n2, n3, n4, if_false, records_append, hclose,
    List.append_nil]
  rw [← c1]
  simp [records]

/-- C2, amended, at the two datagrams in the other order: the valid one
comes first and is the whole prefix. -/
theorem C2_records_until_first_malformed_witness :
    records (idnHelloScan specLayout true
        { malformedFirstEnv with iters := malformedFirstEnv.iters.reverse } none 5 []).1
      = validRecords specLayout true (requestSequence true 0x1234ABCD)
          ((malformedFirstEnv.iters.reverse).takeWhile
            (Iter.accepted specLayout true (requestSequence true 0x1234ABCD))) []
    ∧ (malformedFirstEnv.iters.reverse).takeWhile
          (Iter.accepted specLayout true (requestSequence true 0x1234ABCD))
        = [⟨1000, none, .datagram sampleResponse, .ok [56], []⟩] :=
  ⟨(C2_records_until_first_malformed specLayout true
      { malformedFirstEnv with iters := malformedFirstEnv.iters.reverse } none 5 []
      [49, 48, 46, 48, 46, 48, 46, 49] (by decide) rfl (by decide) (by decide) (by decide)
      (by decide) (by decide) (by decide)).1,
   by decide⟩

/-- C3: the response built from SCAN_RESPONSE, the sequence of the request,
structSize = body size, a unit identifier `u` that fits its field and a
host name `h` without nul that fits its field with the terminator passes
the four checks of the session that sent the request, whatever the padding
and whatever the receive buffer held before; the unit identifier and the
host name that the formatting reads are `u` and `h`, the host name being
absent when `h` is empty, and the record printed is that of `u` and `h`. -/
theorem C3_round_trip (L : Layout) (le : Bool) (pad : List Nat) (flags r : Nat)
    (u h buf recvAddr stack : List Nat)
    (hwf : L.wf) (hu : u.length + 1 ≤ L.unitIDSize) (hh : h.length + 1 ≤ L.hostNameSize)
    (hnul : ∀ c ∈ h, c ≠ 0) (hbuf : buf.length ≤ 65536) :
    checkResponse L le (recvInto buf (encodeResponse L pad flags (r % 65536) u h))
        (min (encodeResponse L pad flags (r % 65536) u h).length 65536)
        (requestSequence le r) recvAddr = none
    ∧ unitID L (recvInto buf (encodeResponse L pad flags (r % 65536) u h)) = u
    ∧ hostName L (recvInto buf (encodeResponse L pad flags (r % 65536) u h)) = h
    ∧ (peek (recvInto buf (encodeResponse L pad flags (r % 65536) u h))
          (hdrSize + L.hostNameOff) ≠ 0 ↔ h ≠ [])
    ∧ ((u ≠ [] ∨ h ≠ []) →
        handleDatagram L le (recvInto buf (encodeResponse L pad flags (r % 65536) u h))
          (min (encodeResponse L pad flags (r % 65536) u h).length 65536)
          (requestSequence le r) recvAddr stack
        = .ok (clip (recordText u h))) := by
  have hlen := length_encodeResponse L pad flags (r % 65536) u h hwf hu hh
  obtain ⟨fA, ⟨preU, lU, fB⟩, ⟨preH, restH, lH, fC⟩⟩ :=
    encodeResponse_facts L pad flags (r % 65536) u h hwf hu hh
  obtain ⟨w1, w2, w3, w4, w5, w6, w7⟩ := hwf
  have hH : hdrSize = 4 := rfl
  generalize hpkt : encodeResponse L pad flags (r % 65536) u h = pkt at *
  have hmin : min pkt.length 65536 = hdrSize + L.bodySize := by omega
  have hrecv : recvInto buf pkt = pkt ++ buf.drop pkt.length := by
    simp [recvInto, writeAt, List.take_of_length_le (by omega : pkt.length ≤ 65536)]
  have tA : (recvInto buf pkt).take 5
      = [] ++ [L.cmdScanResponse, flags, r % 65536 / 256 % 256, r % 65536 % 256, L.bodySize] := by
    rw [hrecv, List.take_append_of_le_length (by omega), fA]; rfl
  have tB : (recvInto buf pkt).take (hdrSize + L.unitIDOff + (u.length + 1))
      = preU ++ (u.length :: u) := by
    rw [hrecv, List.take_append_of_le_length (by omega), fB]
  have q0 := peek_of_take _ _ _ _ tA 0 (by simp)
  have q2 := peek_of_take _ _ _ _ tA 2 (by simp)
  have q3 := peek_of_take _ _ _ _ tA 3 (by simp)
  have q4 := peek_of_take _ _ _ _ tA 4 (by simp)
  simp only [List.length_nil, Nat.zero_add, peek, List.getD_cons_zero, List.getD_cons_succ]
    at q0 q2 q3 q4
  have hdiv : r % 65536 / 256 % 256 = r % 65536 / 256 := by omega
  rw [hdiv] at q2
  obtain ⟨e1, e2, e3⟩ := requestSequence_bytes le r
  have hseq : loadU16 le (recvInto buf pkt) 2 = requestSequence le r := by
    rw [e1, loadU16_eq_iff le _ 2 _ _ e2 e3 (by simp only [peek, q2]; omega)
      (by simp only [peek, q3]; omega)]
    simp only [peek, q2, q3]
  have hchk : checkResponse L le (recvInto buf pkt) (min pkt.length 65536)
      (requestSequence le r) recvAddr = none := by
    simp only [checkResponse, hmin, hseq, peek, q0, hH, q4, ne_eq, not_true_eq_false, if_false]
  have hN : peek (recvInto buf pkt) (hdrSize + L.unitIDOff) = u.length := by
    have := peek_of_take _ _ _ _ tB 0 (by simp)
    simpa [lU, peek] using this
  have tB2 : (recvInto buf pkt).take (hdrSize + L.unitIDOff + (u.length + 1))
      = (preU ++ [u.length]) ++ u := by
    rw [tB]; simp
  have hU : unitID L (recvInto buf pkt) = u := by
    have := readBytes_of_take _ _ _ _ tB2
    simp only [List.length_append, lU, List.length_singleton] at this
    rw [unitID, hN, this]
  have hdrop : (recvInto buf pkt).drop (hdrSize + L.hostNameOff)
      = h ++ 0 :: (restH ++ buf.drop pkt.length) := by
    rw [hrecv, fC, ← lH]
    simp
  have hHn : hostName L (recvInto buf pkt) = h := by
    rw [hostName, hdrop]
    exact cstr_append h _ hnul
  have hpk : peek (recvInto buf pkt) (hdrSize + L.hostNameOff) ≠ 0 ↔ h ≠ [] := by
    rw [← cstr_ne_nil]
    show hostName L (recvInto buf pkt) ≠ [] ↔ _
    rw [hHn]
  refine ⟨hchk, hU, hHn, hpk, ?_⟩
  intro hne
  have hbl : (recvInto buf pkt).length ≤ 65536 := by
    rw [hrecv, List.length_append, List.length_drop]; omega
  have := (handleDatagram_accepted L le (recvInto buf pkt) (min pkt.length 65536) (requestSequence le r)
    recvAddr stack hchk hbl (by rw [hU, hHn]; exact hne))
  rw [hU, hHn] at this
  exact this

/-- C3 at the sample response: it is the encoded packet, it passes the
checks and gives back AA BB CC and "dev1". -/
theorem C3_round_trip_witness :
    encodeResponse specLayout [] 0 (0x1234ABCD % 65536) [170, 187, 204] [100, 101, 118, 49]
      = sampleResponse
    ∧ checkResponse specLayout true (recvInto [] (encodeResponse specLayout [] 0
          (0x1234ABCD % 65536) [170, 187, 204] [100, 101, 118, 49]))
        (min (encodeResponse specLayout [] 0 (0x1234ABCD % 65536) [170, 187, 204]
          [100, 101, 118, 49]).length 65536)
        (requestSequence true 0x1234ABCD) [55] = none
    ∧ unitID specLayout (recvInto [] (encodeResponse specLayout [] 0
          (0x1234ABCD % 65536) [170, 187, 204] [100, 101, 118, 49])) = [170, 187, 204]
    ∧ hostName specLayout (recvInto [] (encodeResponse specLayout [] 0
          (0x1234ABCD % 65536) [170, 187, 204] [100, 101, 118, 49])) = [100, 101, 118, 49] :=
  ⟨by decide,
   (C3_round_trip specLayout true [] 0 0x1234ABCD [170, 187, 204] [100, 101, 118, 49] []
      [55] [] (by decide) (by decide) (by decide) (by decide) (by decide)).1,
   (C3_round_trip specLayout true [] 0 0x1234ABCD [170, 187, 204] [100, 101, 118, 49] []
      [55] [] (by decide) (by decide) (by decide) (by decide) (by decide)).2.1,
   (C3_round_trip specLayout true [] 0 0x1234ABCD [170, 187, 204] [100, 101, 118, 49] []
      [55] [] (by decide) (by decide) (by decide) (by decide) (by decide)).2.2.1⟩

/-- C5: the request is the four bytes SCAN_REQUEST, 0 and the 16 bit value
`r mod 2^16` with its high byte first, whatever the byte order of the host;
it is built for every `r`, and two requests have the same sequence bytes
exactly when their 16 bit values are the same.  A session whose random
number is `r` and whose setup succeeds up to the bind sends exactly these
four bytes to the discovery port, right after the bind, and sends nothing
else; no session sends anything else. -/
theorem C5_request_encoding (L : Layout) (le : Bool) (r : Nat)
    (h : L.cmdScanRequest < 256) :
    sendPacketHdr L le r = [L.cmdScanRequest, 0, r % 65536 / 256, r % 65536 % 256]
    ∧ (sendPacketHdr L le r).length = hdrSize
    ∧ (∀ r2 : Nat, ((sendPacketHdr L le r).drop 2 = (sendPacketHdr L le r2).drop 2
        ↔ r % 65536 = r2 % 65536))
    ∧ (∀ (env : Env) (ifName : Option (List Nat)) (ifIP4Addr : Nat) (buf : List Nat) (fd : Int)
        (pkt : List Nat) (port : Nat), env.rand = r →
        Event.sendto fd pkt port ∈ (idnHelloScan L le env ifName ifIP4Addr buf).1 →
        pkt = [L.cmdScanRequest, 0, r % 65536 / 256, r % 65536 % 256])
    ∧ (∀ (env : Env) (ifName : Option (List Nat)) (ifIP4Addr : Nat) (buf ifAddr : List Nat),
        env.rand = r → env.ntopIf = .ok ifAddr → 0 ≤ env.sockOpen.rc →
        0 ≤ env.setBroadcast.rc → 0 ≤ env.bind.rc →
        ∃ rest, (idnHelloScan L le env ifName ifIP4Addr buf).1
            = [.logInfoScan (ifName.getD [60, 63, 62]) ifAddr, .sockOpen,
               .setBroadcast env.sockOpen.rc, .bind env.sockOpen.rc ifIP4Addr,
               .sendto env.sockOpen.rc
                 [L.cmdScanRequest, 0, r % 65536 / 256, r % 65536 % 256] L.udpPort] ++ rest
          ∧ ∀ e ∈ rest, e.isSendto = false) := by
  have hc : L.cmdScanRequest % 256 = L.cmdScanRequest := Nat.mod_eq_of_lt h
  refine ⟨?_, ?_, ?_, ?_, ?_⟩
  · rw [sendPacketHdr_eq, hc]
  · rw [sendPacketHdr_eq]; rfl
  · intro r2
    rw [sendPacketHdr_eq, sendPacketHdr_eq]
    simp only [List.drop_succ_cons, List.drop_zero, List.cons.injEq, and_true]
    omega
  · intro env ifName ifIP4Addr buf fd pkt port hr hmem
    rw [(scan_sendto L le env ifName ifIP4Addr buf fd pkt port hmem).1, hr, sendPacketHdr_eq, hc]
  · intro env ifName ifIP4Addr buf ifAddr hr h1 h2 h3 h4
    have := scan_sends L le env ifName ifIP4Addr buf ifAddr h1 h2 h3 h4
    rw [hr, sendPacketHdr_eq, hc] at this
    exact this

/-- C5 at the random number 0x1234ABCD on a little-endian and on a
big-endian host, and at the session of the quiet platform, which sends
10 00 AB CD to port 7255 after the bind and then waits and closes. -/
theorem C5_request_encoding_witness :
    sendPacketHdr specLayout true 0x1234ABCD = [16, 0, 0xAB, 0xCD]
    ∧ sendPacketHdr specLayout false 0x1234ABCD = [16, 0, 0xAB, 0xCD]
    ∧ (∃ rest, (idnHelloScan specLayout true quietEnv none 5 []).1
          = [.logInfoScan [60, 63, 62] [49, 48, 46, 48, 46, 48, 46, 49], .sockOpen,
             .setBroadcast 3, .bind 3 5, .sendto 3 [16, 0, 0xAB, 0xCD] 7255] ++ rest
        ∧ ∀ e ∈ rest, e.isSendto = false)
    ∧ (idnHelloScan specLayout true quietEnv none 5 []).1
        = [.logInfoScan [60, 63, 62] [49, 48, 46, 48, 46, 48, 46, 49], .sockOpen,
           .setBroadcast 3, .bind 3 5, .sendto 3 [16, 0, 0xAB, 0xCD] 7255,
           .select 3 ⟨0, 500000⟩ 500000, .close 3] :=
  ⟨(C5_request_encoding specLayout true 0x1234ABCD (by decide)).1,
   (C5_request_encoding specLayout false 0x1234ABCD (by decide)).1,
   (C5_request_encoding specLayout true 0x1234ABCD (by decide)).2.2.2.2 quietEnv none 5 []
      [49, 48, 46, 48, 46, 48, 46, 49] rfl rfl (by decide) (by decide) (by decide),
   by decide⟩

/-- C6: a session that opened the socket closes it exactly once, and no
call on the socket follows the close, whatever the platform answers
afterwards. -/
theorem C6_socket_closed_once (L : Layout) (le : Bool) (env : Env)
    (ifName : Option (List Nat)) (ifIP4Addr : Nat) (buf ifAddr : List Nat)
    (h1 : env.ntopIf = .ok ifAddr) (h2 : 0 ≤ env.sockOpen.rc) :
    ∃ pre post, (idnHelloScan L le env ifName ifIP4Addr buf).1
        = pre ++ [.close env.sockOpen.rc] ++ post
      ∧ Event.sockOpen ∈ pre
      ∧ (∀ e ∈ pre, e.isClose = false)
      ∧ (∀ e ∈ post, e.isSocketOp = false) := by
  have h2n : ¬ env.sockOpen.rc < 0 := by omega
  refine ⟨(scanBody L le env ifName ifIP4Addr buf).2.1,
    if env.close.rc ≠ 0 then [.logError (.close env.close.errno)] else [], ?_, ?_, ?_, ?_⟩
  · have hfd : (scanBody L le env ifName ifIP4Addr buf).1 = env.sockOpen.rc := by
      simp only [scanBody, h1, h2n, if_false]
      split_ifs <;> rfl
    simp only [idnHelloScan, hfd, closeSocket]
    have : env.sockOpen.rc ≥ 0 := h2
    simp only [this, if_true]
    split_ifs <;> simp
  · simp only [scanBody, h1, h2n, if_false]
    split_ifs <;> simp
  · intro e he
    simp only [scanBody, h1, h2n, if_false] at he
    split_ifs at he
    · simp at he; rcases he with h | h | h | h <;> subst h <;> rfl
    · simp at he; rcases he with h | h | h | h | h <;> subst h <;> rfl
    · simp at he; rcases he with h | h | h | h | h | h <;> subst h <;> rfl
    · simp only [List.mem_append, List.mem_cons] at he
      rcases he with (h | h | h | h | h | h) | h
      · subst h; rfl
      · subst h; rfl
      · subst h; rfl
      · subst h; rfl
      · subst h; rfl
      · simp at h
      · exact collect_no_close L le _ _ _ _ _ _ e h
  · intro e he
    split_ifs at he
    · simp at he; subst he; rfl
    · simp at he

/-- C6 at a session whose bind fails: the socket 3 is closed once, at the
end. -/
theorem C6_socket_closed_once_witness :
    ∃ pre post, (idnHelloScan specLayout true { quietEnv with bind := ⟨-1, 99⟩ } none 5 []).1
        = pre ++ [.close 3] ++ post
      ∧ Event.sockOpen ∈ pre
      ∧ (∀ e ∈ pre, e.isClose = false)
      ∧ (∀ e ∈ post, e.isSocketOp = false) :=
  C6_socket_closed_once specLayout true { quietEnv with bind := ⟨-1, 99⟩ } none 5 []
    [49, 48, 46, 48, 46, 48, 46, 49] rfl (by decide)

/-- C7: when the socket cannot be opened the session logs that one failure
and does nothing else: no broadcast-enable, bind, send, wait, receive or
close, and no record.  When broadcast-enable, bind or send fails, the
session logs that one failure, attempts none of the later steps, closes the
socket and returns. -/
theorem C7_setup_failure_terminal (L : Layout) (le : Bool) (env : Env)
    (ifName : Option (List Nat)) (ifIP4Addr : Nat) (buf ifAddr : List Nat)
    (h : env.ntopIf = .ok ifAddr) :
    (env.sockOpen.rc < 0 →
      idnHelloScan L le env ifName ifIP4Addr buf
        = ([.logInfoScan (ifName.getD [60, 63, 62]) ifAddr, .sockOpen,
            .logError (.socket env.sockOpen.errno)], buf))
    ∧ (0 ≤ env.sockOpen.rc → env.setBroadcast.rc < 0 →
      idnHelloScan L le env ifName ifIP4Addr buf
        = ([.logInfoScan (ifName.getD [60, 63, 62]) ifAddr, .sockOpen,
            .setBroadcast env.sockOpen.rc, .logError (.setsockopt env.setBroadcast.errno),
            .close env.sockOpen.rc]
            ++ (if env.close.rc ≠ 0 then [.logError (.close env.close.errno)] else []), buf))
    ∧ (0 ≤ env.sockOpen.rc → 0 ≤ env.setBroadcast.rc → env.bind.rc < 0 →
      idnHelloScan L le env ifName ifIP4Addr buf
        = ([.logInfoScan (ifName.getD [60, 63, 62]) ifAddr, .sockOpen,
            .setBroadcast env.sockOpen.rc, .bind env.sockOpen.rc ifIP4Addr,
            .logError (.bind env.bind.errno), .close env.sockOpen.rc]
            ++ (if env.close.rc ≠ 0 then [.logError (.close env.close.errno)] else []), buf))
    ∧ (0 ≤ env.sockOpen.rc → 0 ≤ env.setBroadcast.rc → 0 ≤ env.bind.rc →
        env.sendto.rc < 0 →
      idnHelloScan L le env ifName ifIP4Addr buf
        = ([.logInfoScan (ifName.getD [60, 63, 62]) ifAddr, .sockOpen,
            .setBroadcast env.sockOpen.rc, .bind env.sockOpen.rc ifIP4Addr,
            .sendto env.sockOpen.rc (sendPacketHdr L le env.rand) L.udpPort,
            .logError (.sendto env.sendto.errno), .close env.sockOpen.rc]
            ++ (if env.close.rc ≠ 0 then [.logError (.close env.close.errno)] else []),
           buf)) := by
  refine ⟨?_, ?_, ?_, ?_⟩
  · intro h1
    have h1n : ¬ env.sockOpen.rc ≥ 0 := by omega
    simp [idnHelloScan, scanBody, h, h1, closeSocket, h1n]
  · intro h1 h2
    have h1n : ¬ env.sockOpen.rc < 0 := by omega
    by_cases hc : env.close.rc = 0 <;>
      simp [idnHelloScan, scanBody, h, h1, h1n, h2, closeSocket, hc]
  · intro h1 h2 h3
    have h1n : ¬ env.sockOpen.rc < 0 := by omega
    have h2n : ¬ env.setBroadcast.rc < 0 := by omega
    by_cases hc : env.close.rc = 0 <;>
      simp [idnHelloScan, scanBody, h, h1, h1n, h2n, h3, closeSocket, hc]
  · intro h1 h2 h3 h4
    have h1n : ¬ env.sockOpen.rc < 0 := by omega
    have h2n : ¬ env.setBroadcast.rc < 0 := by omega
    have h3n : ¬ env.bind.rc < 0 := by omega
    by_cases hc : env.close.rc = 0 <;>
      simp [idnHelloScan, scanBody, h, h1, h1n, h2n, h3n, h4, closeSocket, hc]

/-- C7 at a session whose socket cannot be opened. -/
theorem C7_setup_failure_terminal_witness :
    idnHelloScan specLayout true { quietEnv with sockOpen := ⟨-1, 24⟩ } none 5 []
      = ([.logInfoScan [60, 63, 62] [49, 48, 46, 48, 46, 48, 46, 49], .sockOpen,
          .logError (.socket 24)], []) :=
  (C7_setup_failure_terminal specLayout true { quietEnv with sockOpen := ⟨-1, 24⟩ } none 5 []
    [49, 48, 46, 48, 46, 48, 46, 49] rfl).1 (by decide)

/-- C8, amended: the budget is set once to 0 s and 500000 µs and a session
whose setup succeeds starts its first wait with it; the loop never assigns
it, so every wait gets the timeout that the `select` before it left behind:
no wait gets more than 500 ms or lasts longer than its budget, and the
budgets do not grow.  Where `select` writes the time not slept back into
the timeout (Linux), every wait gets what the waits before it left of the
500 ms and the waits of one session add up to at most 500 ms, however many
datagrams arrived; where `select` leaves the timeout unchanged, every wait
gets 500 ms again.  A wait that reports no ready datagram ends the
collection with no diagnostic. -/
theorem C8_fixed_window (L : Layout) (le : Bool) (env : Env) (ifName : Option (List Nat))
    (ifIP4Addr : Nat) (buf : List Nat) :
    (∀ ifAddr, env.ntopIf = .ok ifAddr → 0 ≤ env.sockOpen.rc → 0 ≤ env.setBroadcast.rc →
        0 ≤ env.bind.rc → 0 ≤ env.sendto.rc →
        ∃ w rest, selects (idnHelloScan L le env ifName ifIP4Addr buf).1
          = (⟨0, 500000⟩, w) :: rest)
    ∧ (∀ tv w rest, selects (idnHelloScan L le env ifName ifIP4Addr buf).1 = (tv, w) :: rest →
        tv = ⟨0, 500000⟩)
    ∧ (∀ x ∈ selects (idnHelloScan L le env ifName ifIP4Addr buf).1,
        x.1.usecs ≤ 500000 ∧ x.2 ≤ x.1.usecs)
    ∧ List.Pairwise (fun x y => y.1.usecs ≤ x.1.usecs)
        (selects (idnHelloScan L le env ifName ifIP4Addr buf).1)
    ∧ (env.selectWritesBack = true →
        budgetsThreaded 500000 (selects (idnHelloScan L le env ifName ifIP4Addr buf).1)
        ∧ ((selects (idnHelloScan L le env ifName ifIP4Addr buf).1).map (fun x => x.2)).sum
            ≤ 500000)
    ∧ (env.selectWritesBack = false →
        ∀ x ∈ selects (idnHelloScan L le env ifName ifIP4Addr buf).1, x.1 = ⟨0, 500000⟩)
    ∧ (∀ wb fd seq tv buf0,
        collect L le wb fd seq [] tv buf0 = ([.select fd tv tv.usecs], buf0))
    ∧ (∀ wb fd seq it rest tv buf0, tv.usecs ≤ it.after →
        collect L le wb fd seq (it :: rest) tv buf0 = ([.select fd tv tv.usecs], buf0)) := by
  obtain ⟨b1, b2, b3, b4, b5⟩ := scan_budgets L le env ifName ifIP4Addr buf
  refine ⟨?_, b1, b2, b3, ?_, b5, ?_, ?_⟩
  · intro ifAddr h1 h2 h3 h4 h5
    obtain ⟨w, rest, g1, _⟩ := collect_budgets L le env.selectWritesBack env.sockOpen.rc
      (requestSequence le env.rand) env.iters ⟨0, 500000⟩ buf
    exact ⟨w, rest, by rw [scan_selects_ok L le env ifName ifIP4Addr buf ifAddr h1 h2 h3 h4 h5,
      g1]⟩
  · intro hw
    exact ⟨b4 hw, (threaded_bounds _ _ (b4 hw)).1⟩
  · intro wb fd seq tv buf0
    simp [collect, select]
  · intro wb fd seq it rest tv buf0 h
    unfold collect
    simp [select_timeout wb tv it.after it.selectError h]

/-- C8, amended, at a Linux session that receives one response after 1 ms:
the second wait gets the 499 ms that are left, and the waits add up to
500 ms. -/
theorem C8_fixed_window_witness :
    selects (idnHelloScan specLayout true
        { quietEnv with iters := [⟨1000, none, .datagram sampleResponse, .ok [55], []⟩] }
        none 5 []).1
      = [(⟨0, 500000⟩, 1000), (⟨0, 499000⟩, 499000)]
    ∧ (budgetsThreaded 500000 (selects (idnHelloScan specLayout true
        { quietEnv with iters := [⟨1000, none, .datagram sampleResponse, .ok [55], []⟩] }
        none 5 []).1)
      ∧ ((selects (idnHelloScan specLayout true
        { quietEnv with iters := [⟨1000, none, .datagram sampleResponse, .ok [55], []⟩] }
        none 5 []).1).map (fun x => x.2)).sum ≤ 500000) :=
  ⟨by decide,
   (C8_fixed_window specLayout true
      { quietEnv with iters := [⟨1000, none, .datagram sampleResponse, .ok [55], []⟩] }
      none 5 []).2.2.2.2.1 rfl⟩

set_option maxRecDepth 100000 in
/-- C8 as stated fails on a platform whose `select` leaves the timeout
unchanged: three valid responses arrive, each 400 ms after the start of
its wait; every wait is given the full 500 ms, not what the waits before it
left, and the session waits 1.7 s in all. -/
theorem C8_unchanged_timeout_waits_longer :
    selects (idnHelloScan specLayout true slowRepliesEnv none 5 []).1
      = [(⟨0, 500000⟩, 400000), (⟨0, 500000⟩, 400000), (⟨0, 500000⟩, 400000),
         (⟨0, 500000⟩, 500000)]
    ∧ ((selects (idnHelloScan specLayout true slowRepliesEnv none 5 []).1).map
        (fun x => x.2)).sum = 1700000
    ∧ ¬ budgetsThreaded 500000 (selects (idnHelloScan specLayout true slowRepliesEnv none 5 []).1)
    ∧ (records (idnHelloScan specLayout true slowRepliesEnv none 5 []).1).length = 3 := by
  refine ⟨by decide, by decide, by decide, by decide⟩

set_option maxRecDepth 100000 in
/-- C9 fails on the code.  The same accepted datagram from the same
address gives the record "X" or "Y" according to what the stack held where
`logString` is allocated, because no call writes the buffer when the
identifier and the host name are empty; and a host name without a nul is
printed together with the bytes that an earlier datagram left behind it in
`gbl_packetBuffer` (here "ZZZ"). -/
theorem C9_record_reads_old_memory :
    (handleDatagram specLayout true (recvInto [] anonymousResponse) 41
        (requestSequence true 0xABCD) [55] [88] = .ok [88]
      ∧ handleDatagram specLayout true (recvInto [] anonymousResponse) 41
        (requestSequence true 0xABCD) [55] [89] = .ok [89])
    ∧ (handleDatagram specLayout true (recvInto [] fullNameResponse) 41
        (requestSequence true 0xABCD) [55] []
        = .ok [65, 65, 45, 40, 49, 50, 51, 52, 53, 54, 55, 56, 57, 48, 49, 50, 51, 52, 53,
            54, 55, 56, 57, 48, 41]
      ∧ handleDatagram specLayout true (recvInto (List.replicate 44 90) fullNameResponse) 41
        (requestSequence true 0xABCD) [55] []
        = .ok [65, 65, 45, 40, 49, 50, 51, 52, 53, 54, 55, 56, 57, 48, 49, 50, 51, 52, 53,
            54, 55, 56, 57, 48, 90, 90, 90, 41]) := by
  refine ⟨⟨by decide, by decide⟩, by decide, by decide⟩

/-- C10, amended: for a buffer of L cells with 1 <= L <= INT_MAX, every
run of at least one append that starts at the beginning of the buffer ends
with a non-null pointer p inside the buffer, has written no cell outside
the buffer, and leaves a string terminated at p.  That string is the whole
text while the pointer has not reached the last cell; once the pointer is
at the last cell it is the text that fits before the margin followed by
dots up to length L-1, and every later append changes nothing.  The
formatting of a record is such a run on the 200 cells of `logString`. -/
theorem C10_bounded_buffer (mem : List Nat) (start L : Nat) (txts : List (List Nat))
    (h0 : 1 ≤ L) (h1 : L ≤ INT_MAX) (h2 : start + L ≤ mem.length) (h3 : txts ≠ []) :
    ∃ p, (appendAll mem (some start) (start + L) txts).2 = some p
      ∧ start ≤ p ∧ p ≤ start + L - 1
      ∧ (appendAll mem (some start) (start + L) txts).1.length = mem.length
      ∧ (appendAll mem (some start) (start + L) txts).1.take start = mem.take start
      ∧ (appendAll mem (some start) (start + L) txts).1.drop (start + L)
          = mem.drop (start + L)
      ∧ (appendAll mem (some start) (start + L) txts).1[p]? = some 0
      ∧ (p < start + L - 1 →
          ((appendAll mem (some start) (start + L) txts).1.drop start).take (p - start)
            = joined txts)
      ∧ (p = start + L - 1 →
          ((appendAll mem (some start) (start + L) txts).1.drop start).take (p - start)
            = (joined txts).take (L - 4) ++ List.replicate (min 3 (L - 1)) 46
          ∧ ∀ more, appendAll (appendAll mem (some start) (start + L) txts).1 (some p)
                (start + L) more
              = ((appendAll mem (some start) (start + L) txts).1, some p))
      ∧ (L < (joined txts).length + 4 → p = start + L - 1)
      ∧ (∀ (lay : Layout) (buf logString : List Nat),
          formatRecord lay buf logString
            = (appendAll logString (some 0) 200
                (unitIDTexts (unitID lay buf) ++ hostNameTexts (hostName lay buf))).1) := by
  obtain ⟨e, hS⟩ := appendAll_eq mem start L txts h0 h1 h2 h3
  have hsl := slice_writeAt mem start (content L txts) 0 (by omega)
  have hsub : start + (content L txts).length - start = (content L txts).length := by omega
  refine ⟨start + (content L txts).length, by rw [e], by omega, by omega, ?_, ?_, ?_, ?_, ?_,
    ?_, ?_, formatRecord_eq⟩
  · rw [e]; exact length_writeAt _ _ _ (by simp; omega)
  · rw [e]; exact take_writeAt _ _ _ _ (le_refl _) (by omega)
  · rw [e]; exact drop_writeAt _ _ _ _ (by simp; omega) (by simp; omega)
  · rw [e]; exact getElem_writeAt_end _ _ _ _ (by omega)
  · intro hp
    rw [e, hsub, hsl]
    rcases content_spec L h0 txts with ⟨hc, _⟩ | ⟨_, hlen, _, _⟩
    · exact hc
    · omega
  · intro hp
    have hlen : (content L txts).length + 1 = L := by omega
    refine ⟨?_, ?_⟩
    · rw [e, hsub, hsl]
      rcases content_spec L h0 txts with ⟨hc, h | h⟩ | ⟨_, _, hc, _⟩
      · rw [hc] at hlen; omega
      · exact absurd h h3
      · exact hc
    · intro more
      rw [e]
      obtain ⟨f, _⟩ := appendAll_from mem start L h1 h2 more (content L txts) hS
      rw [content_stuck L more _ hlen] at f
      exact f
  · intro hbig
    have := (content_cut L h0 txts h3 hbig).2
    omega

/-- C10, amended, at the 200 cells of `logString` and the calls for
AA BB CC and "dev1". -/
theorem C10_bounded_buffer_witness :
    ∃ p, (appendAll (allocLog []) (some 0) (0 + 200)
          (unitIDTexts [170, 187, 204] ++ hostNameTexts [100, 101, 118, 49])).2 = some p
      ∧ 0 ≤ p ∧ p ≤ 0 + 200 - 1 :=
  let ⟨p, a, b, c, _⟩ := C10_bounded_buffer (allocLog []) 0 200
    (unitIDTexts [170, 187, 204] ++ hostNameTexts [100, 101, 118, 49])
    (by decide) (by decide) (by rw [length_allocLog]) (by decide)
  ⟨p, a, b, c⟩

/-- C10 as stated fails for a buffer of L = 2^31 cells: the length
`limitPtr - bufPtr` does not fit the `int len` of line 72, which becomes
negative, and the first append returns the null pointer. -/
theorem C10_huge_buffer_null :
    (List.replicate 2147483648 0).length = 2147483648
    ∧ (appendAll (List.replicate 2147483648 0) (some 0) (0 + 2147483648) [[65]]).2 = none :=
  ⟨List.length_replicate _ _, by decide⟩

end IdnHelloScan
